import Mathlib

/-!
Shallow embedding of the Constructure-AI backend's AI-service and chat-dispatch
logic (src/backend/services/ai_service.py and the DELETE_EMAIL / chat branches of
src/backend/main.py), together with theorems settling the frozen claims about it.

Python strings are modelled as Lean `String` / `List Char`; Python dicts produced
by `json.loads` are modelled by the `Json` inductive with exact rational numbers;
fallible provider calls are modelled as `Except String String` values (the raised
exception's string form on the error side).
-/

namespace ConstructureAI

/-- An exact decimal `m / 10 ^ e`, kept normalized (no trailing zeros in `m`
while `e > 0`) so that syntactic equality coincides with numeric equality for
the decimals JSON can denote. -/
structure Dec where
  m : Int
  e : Nat
deriving DecidableEq

/-- Normalize a raw decimal `m / 10 ^ e` by cancelling factors of ten. -/
def Dec.norm : Int → Nat → Dec
  | m, 0 => ⟨m, 0⟩
  | m, e + 1 => if m % 10 = 0 then Dec.norm (m / 10) e else ⟨m, e + 1⟩

/-- JSON values as produced by a strict JSON parser; numbers are exact decimals. -/
inductive Json where
  | null : Json
  | bool (b : Bool) : Json
  | num (q : Dec) : Json
  | str (s : String) : Json
  | arr (elems : List Json) : Json
  | obj (fields : List (String × Json)) : Json

/- Character constants (several of these are awkward as literals). -/

def lbrace : Char := Char.ofNat 123

def rbrace : Char := Char.ofNat 125

def lbrack : Char := '['

def rbrack : Char := ']'

def dquote : Char := Char.ofNat 34

def bslash : Char := Char.ofNat 92

def btick : Char := Char.ofNat 96

/-- JSON inter-token whitespace accepted by `json.loads`. -/
def isJsonWs (c : Char) : Bool :=
  c = ' ' || c = '\t' || c = '\n' || c = '\r'

def skipWs (l : List Char) : List Char := l.dropWhile isJsonWs

def hexVal (c : Char) : Option Nat :=
  if '0' ≤ c ∧ c ≤ '9' then some (c.toNat - 48)
  else if 'a' ≤ c ∧ c ≤ 'f' then some (c.toNat - 97 + 10)
  else if 'A' ≤ c ∧ c ≤ 'F' then some (c.toNat - 65 + 10)
  else none

/-- Body of a JSON string after its opening quote: collect characters until the
closing quote, decoding escape sequences; raw control characters are rejected
(`json.loads` strict mode). -/
def parseStringAux : List Char → List Char → Option (String × List Char)
  | _, [] => none
  | acc, c :: rest =>
    if c = dquote then some (String.mk acc.reverse, rest)
    else if c = bslash then
      match rest with
      | [] => none
      | e :: r =>
        if e = dquote then parseStringAux (dquote :: acc) r
        else if e = bslash then parseStringAux (bslash :: acc) r
        else if e = '/' then parseStringAux ('/' :: acc) r
        else if e = 'b' then parseStringAux (Char.ofNat 8 :: acc) r
        else if e = 'f' then parseStringAux (Char.ofNat 12 :: acc) r
        else if e = 'n' then parseStringAux ('\n' :: acc) r
        else if e = 'r' then parseStringAux ('\r' :: acc) r
        else if e = 't' then parseStringAux ('\t' :: acc) r
        else if e = 'u' then
          match r with
          | a :: b :: c2 :: d :: r2 =>
            match hexVal a, hexVal b, hexVal c2, hexVal d with
            | some ha, some hb, some hc, some hd =>
              parseStringAux (Char.ofNat (((ha * 16 + hb) * 16 + hc) * 16 + hd) :: acc) r2
            | _, _, _, _ => none
          | _ => none
        else none
    else if c.toNat < 32 then none
    else parseStringAux (c :: acc) rest

def digitsToNat (ds : List Char) : Nat :=
  ds.foldl (fun a c => a * 10 + (c.toNat - 48)) 0

/-- Fractional part `.ddd` of a JSON number, as (digits value, digit count, rest);
a dot not followed by a digit is not consumed (Python's number regex leaves it for
the surrounding parser to reject). -/
def parseFrac (l : List Char) : Nat × Nat × List Char :=
  match l with
  | c :: r =>
    if c = '.' then
      let ds := r.takeWhile Char.isDigit
      if ds.isEmpty then (0, 0, l)
      else (digitsToNat ds, ds.length, r.dropWhile Char.isDigit)
    else (0, 0, l)
  | [] => (0, 0, l)

/-- Exponent part of a JSON number, as (sign-is-nonnegative, exponent, rest); an
`e` not followed by digits is not consumed. -/
def parseExp (l : List Char) : Bool × Nat × List Char :=
  match l with
  | c :: r =>
    if c = 'e' || c = 'E' then
      let (pos, r2) : Bool × List Char :=
        match r with
        | s :: r2 =>
          if s = '+' then (true, r2)
          else if s = '-' then (false, r2)
          else (true, r)
        | [] => (true, r)
      let ds := r2.takeWhile Char.isDigit
      if ds.isEmpty then (true, 0, l)
      else (pos, digitsToNat ds, r2.dropWhile Char.isDigit)
    else (true, 0, l)
  | [] => (true, 0, l)

/-- JSON number: `-? (0 | [1-9][0-9]*) frac? exp?`, assembled as an exact decimal. -/
def parseNumber (l : List Char) : Option (Dec × List Char) :=
  let (neg, l1) : Bool × List Char :=
    match l with
    | c :: r => if c = '-' then (true, r) else (false, l)
    | [] => (false, l)
  let ip : Option (Nat × List Char) :=
    match l1 with
    | c :: r =>
      if c = '0' then some (0, r)
      else if c.isDigit then
        some (digitsToNat (c :: r.takeWhile Char.isDigit), r.dropWhile Char.isDigit)
      else none
    | [] => none
  match ip with
  | none => none
  | some (i, l2) =>
    let (f, k, l3) := parseFrac l2
    let (pos, n, l4) := parseExp l3
    let mant : Int := (i * 10 ^ k + f : Nat)
    let mant : Int := if neg then -mant else mant
    some (if pos then Dec.norm (mant * 10 ^ n) k else Dec.norm mant (k + n), l4)

/-- The fraction/exponent continuation of `parseNumber`, abstracted over the sign and
the integer part so the branches of `parseNumber` can be reasoned about uniformly. -/
def numTail (neg : Bool) (i : Nat) (l2 : List Char) : Dec × List Char :=
  let (f, k, l3) := parseFrac l2
  let (pos, n, l4) := parseExp l3
  let mant : Int := (i * 10 ^ k + f : Nat)
  let mant : Int := if neg then -mant else mant
  (if pos then Dec.norm (mant * 10 ^ n) k else Dec.norm mant (k + n), l4)

def litNull : List Char := ['n', 'u', 'l', 'l']

def litTrue : List Char := ['t', 'r', 'u', 'e']

def litFalse : List Char := ['f', 'a', 'l', 's', 'e']

/-- Parser mode: a whole value, the elements of an array being collected, or the
members of an object being collected (accumulators reversed). -/
inductive PMode where
  | val : PMode
  | elems (acc : List Json) : PMode
  | mems (acc : List (String × Json)) : PMode

/-- Fueled recursive-descent JSON parser (model of `json.loads`'s scanner);
structural recursion on the fuel so that closed calls reduce in the kernel.
In `.val` mode, expects no leading whitespace. -/
def parseStep (fuel : Nat) (mode : PMode) (l : List Char) : Option (Json × List Char) :=
  match fuel with
  | 0 => none
  | fuel + 1 =>
    match mode with
    | .val =>
      match l with
      | [] => none
      | c :: r =>
        if c = lbrace then parseStep fuel (.mems []) (skipWs r)
        else if c = lbrack then parseStep fuel (.elems []) (skipWs r)
        else if c = dquote then
          match parseStringAux [] r with
          | some (s, r2) => some (.str s, r2)
          | none => none
        else if litNull.isPrefixOf l then some (.null, l.drop 4)
        else if litTrue.isPrefixOf l then some (.bool true, l.drop 4)
        else if litFalse.isPrefixOf l then some (.bool false, l.drop 5)
        else
          match parseNumber l with
          | some (q, r2) => some (.num q, r2)
          | none => none
    | .elems acc =>
      match l with
      | [] => none
      | c :: r =>
        if c = rbrack ∧ acc.isEmpty then some (.arr [], r)
        else
          match parseStep fuel .val l with
          | none => none
          | some (v, r2) =>
            match skipWs r2 with
            | [] => none
            | c2 :: r4 =>
              if c2 = ',' then parseStep fuel (.elems (v :: acc)) (skipWs r4)
              else if c2 = rbrack then some (.arr (v :: acc).reverse, r4)
              else none
    | .mems acc =>
      match l with
      | [] => none
      | c :: r =>
        if c = rbrace ∧ acc.isEmpty then some (.obj [], r)
        else if c = dquote then
          match parseStringAux [] r with
          | none => none
          | some (k, r2) =>
            match skipWs r2 with
            | [] => none
            | c2 :: r3 =>
              if c2 = ':' then
                match parseStep fuel .val (skipWs r3) with
                | none => none
                | some (v, r4) =>
                  match skipWs r4 with
                  | [] => none
                  | c3 :: r5 =>
                    if c3 = ',' then parseStep fuel (.mems ((k, v) :: acc)) (skipWs r5)
                    else if c3 = rbrace then some (.obj ((k, v) :: acc).reverse, r5)
                    else none
              else none
        else none

/-- Model of `json.loads`: skip surrounding whitespace, parse one value, require
end of input; `none` models a raised `JSONDecodeError`. -/
def jsonLoads (s : String) : Option Json :=
  let l := skipWs s.toList
  match parseStep (2 * l.length + 2) .val l with
  | some (v, rest) => if (skipWs rest).isEmpty then some v else none
  | none => none

/-- Last-binding lookup in a parsed JSON object, matching Python dict semantics
where a duplicated key keeps its last value. -/
def jlookupLast (fs : List (String × Json)) (k : String) : Option Json :=
  ((fs.filter (fun p => p.1 = k)).getLast?).map (fun p => p.2)

/- Python string helpers. -/

/-- Characters stripped by Python's `str.strip()`. -/
def isPyWs (c : Char) : Bool :=
  c = ' ' || c = '\t' || c = '\n' || c = '\r' || c = Char.ofNat 11 || c = Char.ofNat 12

def pyStripList (l : List Char) : List Char :=
  ((l.dropWhile isPyWs).reverse.dropWhile isPyWs).reverse

/-- Model of Python `str.strip()`. -/
def pyStrip (s : String) : String := String.mk (pyStripList s.toList)

/-- Model of Python `str.lower()` (ASCII-faithful). -/
def pyLower (s : String) : String := String.mk (s.toList.map Char.toLower)

/-- Character-list substring test, structurally recursive. -/
def listInfixBool (pat : List Char) : List Char → Bool
  | [] => pat.isEmpty
  | c :: cs => pat.isPrefixOf (c :: cs) || listInfixBool pat cs

/-- Model of the Python substring test `pat in hay`. -/
def strContains (hay pat : String) : Bool :=
  listInfixBool pat.toList hay.toList

/-- Model of Python slicing `s[:n]` on strings. -/
def pyTake (n : Nat) (s : String) : String := String.mk (s.toList.take n)

/-- Model of Python slicing `s[n:]`. -/
def pyDrop (n : Nat) (s : String) : String := String.mk (s.toList.drop n)

/-- The three-backtick fence marker as a character list. -/
def ticks : List Char := [btick, btick, btick]

/-- Left-to-right scanner behind Python `s.split(fence)` for the three-backtick
fence: at each position, if the next three characters are backticks, finish the
current piece (accumulated reversed in `acc`) and continue after them; otherwise
advance one character.  The fuel argument (always at least the input length plus
one at the entry point) makes the recursion structural. -/
def splitTicksFuel : Nat → List Char → List Char → List (List Char)
  | 0, acc, l => [acc.reverse ++ l]
  | _ + 1, acc, [] => [acc.reverse]
  | fuel + 1, acc, c :: cs =>
    if ticks.isPrefixOf (c :: cs) then acc.reverse :: splitTicksFuel fuel [] (cs.drop 2)
    else splitTicksFuel fuel (c :: acc) cs

/-- Model of Python `s.split("three backticks")` (non-overlapping, left to right). -/
def splitTicks (l : List Char) : List (List Char) := splitTicksFuel (l.length + 1) [] l

def jsonTag : List Char := ['j', 's', 'o', 'n']

/-- Markdown code-fence stripping shared by `classify_intent` and
`categorize_emails` (ai_service.py lines 299-304 and 364-369): when the provider
text starts with a fence marker, keep the piece between the first two markers,
drop a leading `json` language tag, and strip surrounding whitespace. -/
def stripFencesList (l : List Char) : List Char :=
  if ticks.isPrefixOf l then
    let t := (splitTicks l).getD 1 []
    let t := if jsonTag.isPrefixOf t then t.drop 4 else t
    pyStripList t
  else l

def stripFences (s : String) : String := String.mk (stripFencesList s.toList)

/-! ## `AIService.classify_intent` (ai_service.py lines 248-324)

The provider call is abstracted as its outcome: `Except.ok text` for a returned
generation, `Except.error e` for a raised exception (`e` its string form).  The
function itself never raises: every failure lands in the keyword fallback. -/

/-- The closed intent enumeration from the classification prompt. -/
def intentKinds : List String :=
  ["READ_EMAILS", "GENERATE_REPLY", "SEND_EMAIL", "DELETE_EMAIL", "CATEGORIZE", "GENERAL_CHAT"]

/-- Keyword fallback used when the classification provider call or parse fails
(ai_service.py lines 310-324). -/
def classifyFallback (user_message : String) : Json :=
  let lower_msg := pyLower user_message
  if strContains lower_msg ("mail") || strContains lower_msg ("inbox")
      || strContains lower_msg ("show") then
    .obj [("intent", .str "READ_EMAILS"),
          ("parameters", .obj [("limit", .num ⟨5, 0⟩)]),
          ("confidence", .num ⟨5, 1⟩)]
  else if strContains lower_msg ("digest") || strContains lower_msg ("summar")
      || strContains lower_msg ("categor") then
    .obj [("intent", .str "CATEGORIZE"),
          ("parameters", .obj [("limit", .num ⟨20, 0⟩)]),
          ("confidence", .num ⟨5, 1⟩)]
  else
    .obj [("intent", .str "GENERAL_CHAT"),
          ("parameters", .obj []),
          ("confidence", .num ⟨0, 0⟩),
          ("message", .str "I'm having trouble connecting to my AI brain right now. You can try asking me to 'read emails' directly.")]

/-- Parsing of the classification provider text: strip fences, `json.loads`, and
require a dict (any non-dict parse makes the subsequent `.get` attribute access
raise, which the surrounding handler turns into the fallback). -/
def classifyParse (text : String) : Option (List (String × Json)) :=
  match jsonLoads (stripFences text) with
  | some (.obj fields) => some fields
  | _ => none

/-- `AIService.classify_intent`: on a successful provider call whose text parses
to a dict, return that dict as-is; otherwise fall back by keyword. -/
def classify_intent (providerResult : Except String String) (user_message : String) : Json :=
  match providerResult with
  | .error _ => classifyFallback user_message
  | .ok text =>
    match classifyParse text with
    | some fields => .obj fields
    | none => classifyFallback user_message

/-! ## Email records and `AIService.categorize_emails` (ai_service.py lines 326-398) -/

/-- The canonical email record built by `GmailService._parse_email_data`
(gmail_service.py lines 147-161); all fields are always present. -/
structure Email where
  id : String
  subject : String
  sender_name : String
  sender_email : String
  snippet : String
  body : String
deriving DecidableEq

/-- The four fixed buckets of the categorization result. -/
structure CategoryMap where
  work : List Email
  personal : List Email
  promotions : List Email
  urgent : List Email
deriving DecidableEq

def emptyCats : CategoryMap := ⟨[], [], [], []⟩

/-- The all-in-Personal fallback map (ai_service.py lines 393-398). -/
def allPersonal (emails : List Email) : CategoryMap := ⟨[], emails, [], []⟩

/-- Python iteration of a categorization entry plus per-element hashability, as
exercised by `for category in email_categories: if category in categories`:
iterating a JSON array yields its elements (lists/dicts among them are unhashable
and raise `TypeError`, numbers/booleans/null are hashable non-keys); iterating a
string yields its one-character substrings; iterating a dict yields its keys;
numbers, booleans and null are not iterable and raise `TypeError`.  `.error ()`
models a raised `TypeError`. -/
def iterCandidates : Json → Except Unit (List String)
  | .arr xs =>
    xs.foldr
      (fun x acc =>
        match acc with
        | .error u => .error u
        | .ok l =>
          match x with
          | .str s => .ok (s :: l)
          | .num _ => .ok l
          | .bool _ => .ok l
          | .null => .ok l
          | .arr _ => .error ()
          | .obj _ => .error ())
      (.ok [])
  | .str s => .ok (s.toList.map (fun c => String.mk [c]))
  | .obj fs => .ok (fs.map (fun p => p.1))
  | .num _ => .error ()
  | .bool _ => .error ()
  | .null => .error ()

/-- The effective category list for the email at index `idx`:
`categorization.get(str(idx), ["Personal"])` then iterated. -/
def effCats (fields : List (String × Json)) (idx : Nat) : Except Unit (List String) :=
  match jlookupLast fields (toString idx) with
  | some v => iterCandidates v
  | none => .ok ["Personal"]

/-- `if category in categories: categories[category].append(email)` over one
email's category list: append to every known bucket named, silently skip
unknown names. -/
def addToBuckets (m : CategoryMap) (e : Email) (cats : List String) : CategoryMap :=
  cats.foldl
    (fun m c =>
      if c = "Work" then { m with work := m.work ++ [e] }
      else if c = "Personal" then { m with personal := m.personal ++ [e] }
      else if c = "Promotions" then { m with promotions := m.promotions ++ [e] }
      else if c = "Urgent" then { m with urgent := m.urgent ++ [e] }
      else m)
    m

/-- The `for idx, email in enumerate(emails)` assignment loop; a `TypeError`
anywhere abandons the partial result (the handler then falls back). -/
def buildCats : List Email → Nat → List (String × Json) → CategoryMap → Except Unit CategoryMap
  | [], _, _, m => .ok m
  | e :: rest, idx, fields, m =>
    match effCats fields idx with
    | .error u => .error u
    | .ok cats => buildCats rest (idx + 1) fields (addToBuckets m e cats)

/-- `AIService.categorize_emails`: empty input short-circuits to empty buckets;
a provider failure, an unparseable or non-dict response, or a `TypeError` while
assigning yields the all-in-Personal fallback; otherwise the assignment loop's
result is returned. -/
def categorize_emails (emails : List Email) (providerResult : Except String String) :
    CategoryMap :=
  if emails.isEmpty then emptyCats
  else
    match providerResult with
    | .error _ => allPersonal emails
    | .ok text =>
      match jsonLoads (stripFences text) with
      | some (.obj fields) =>
        match buildCats emails 0 fields emptyCats with
        | .ok m => m
        | .error _ => allPersonal emails
      | _ => allPersonal emails

/-! ## `GeminiProvider.generate_text` retry loop (ai_service.py lines 68-116)

Attempt outcomes are abstracted as a function from the attempt number (0-based)
to either a generated text or a raised exception's string form. -/

inductive AttemptOutcome where
  | ok (text : String) : AttemptOutcome
  | err (msg : String) : AttemptOutcome

/-- `"429" in error_str or "quota" in error_str.lower() or "resource" in
error_str.lower()`. -/
def isRateLimitError (e : String) : Bool :=
  strContains e ("429") || strContains (pyLower e) ("quota")
    || strContains (pyLower e) ("resource")

def MAX_RETRIES : Nat := 3

/-- The `while retries <= MAX_RETRIES` loop, unrolled structurally on the fuel
`MAX_RETRIES + 1 - retries` (so the loop counter is `retries = MAX_RETRIES - fuel`
when the fuel is `fuel + 1`, and fuel `0` is the `retries > MAX_RETRIES` exit).
Returns (number of attempts made, result); `Except.error` models the re-raised
last exception. -/
def geminiLoop (attempts : Nat → AttemptOutcome) :
    Nat → Nat → Option String → Nat × Except String String
  | 0, made, lastError =>
    (made,
     match lastError with
     | some e => .error e
     | none => .error "Unknown error in Gemini provider")
  | fuel + 1, made, _ =>
    let retries := MAX_RETRIES - fuel
    match attempts made with
    | .ok t => (made + 1, .ok (pyStrip t))
    | .err e =>
      if isRateLimitError e then
        if retries + 1 > MAX_RETRIES then (made + 1, .error e)
        else geminiLoop attempts fuel (made + 1) (some e)
      else (made + 1, .error e)

/-- `GeminiProvider.generate_text`, starting from `retries = 0` with no error. -/
def gemini_generate_text (attempts : Nat → AttemptOutcome) : Nat × Except String String :=
  geminiLoop attempts (MAX_RETRIES + 1) 0 none

/-! ## Prompt templates and the prose-task wrappers (ai_service.py lines 173-246,
400-443) -/

def summarizeSystemPrompt : String :=
  "You are a helpful email assistant that creates concise, accurate summaries."

/-- The user prompt of `summarize_email`; the body is embedded as
`email_content[:2000]`. -/
def summarizePrompt (subject email_content : String) : String :=
  "Summarize the following email in 1-2 concise sentences. Focus on the main point and any action items.\n\nSubject: "
    ++ subject
    ++ "\n\nEmail Content:\n"
    ++ pyTake 2000 email_content
    ++ "\n\nProvide only the summary, no additional commentary."

/-- `AIService.summarize_email`: a provider failure is caught and replaced by the
fixed busy-notice string. -/
def summarize_email (provider : String → String → Except String String)
    (email_content subject : String) : String :=
  match provider summarizeSystemPrompt (summarizePrompt subject email_content) with
  | .ok summary => summary
  | .error _ => "Summary unavailable (AI service busy)"

def replySystemPrompt : String :=
  "You are a professional email assistant that writes clear, appropriate responses."

/-- `f"\n\nAdditional Context: {context}" if context else ""`. -/
def contextSection (context : Option String) : String :=
  match context with
  | some c => if c.isEmpty then "" else "\n\nAdditional Context: " ++ c
  | none => ""

/-- The user prompt of `generate_reply`; the body is embedded as
`email_content[:1500]`. -/
def replyPrompt (sender subject email_content : String) (context : Option String) : String :=
  "Generate a professional, context-aware reply to the following email. The reply should be:\n- Polite and professional\n- Addressing the main points raised\n- Concise but complete\n- Ready to send without modification\n\nOriginal Email:\nFrom: "
    ++ sender
    ++ "\nSubject: "
    ++ subject
    ++ "\n\n"
    ++ pyTake 1500 email_content
    ++ "\n"
    ++ contextSection context
    ++ "\n\nGenerate only the email body (no subject line, no \"Dear X\" unless natural, just the message content)."

/-- `AIService.generate_reply`: a provider failure is caught and replaced by the
fixed apology string. -/
def generate_reply (provider : String → String → Except String String)
    (email_content subject sender : String) (context : Option String) : String :=
  match provider replySystemPrompt (replyPrompt sender subject email_content context) with
  | .ok reply => reply
  | .error _ =>
    "I apologize, but I'm currently unable to generate a reply due to high demand. Please try again in a moment."

def digestSystemPrompt : String :=
  "You are a helpful email assistant creating daily digests."

/-- One block of the digest's email data:
`f"From: {sender_name}\nSubject: {subject}\nSnippet: {snippet[:150]}\n"`. -/
def digestEmailBlock (e : Email) : String :=
  "From: " ++ e.sender_name ++ "\nSubject: " ++ e.subject ++ "\nSnippet: "
    ++ pyTake 150 e.snippet ++ "\n"

/-- The user prompt of `generate_daily_digest`, built from `emails[:20]`. -/
def digestPrompt (emails : List Email) : String :=
  "Create a daily email digest summary. Include:\n\n1. A brief overview of the day's emails\n2. Key emails that require attention\n3. Suggested actions or follow-ups\n4. Any urgent or time-sensitive items\n\nEmails:\n"
    ++ String.intercalate "\n---\n" ((emails.take 20).map digestEmailBlock)
    ++ "\n\nFormat the digest in a clear, organized manner with bullet points and sections."

/-- `AIService.generate_daily_digest`: empty input returns the fixed notice
without any provider call; a provider failure is caught and replaced by the fixed
unavailability string. -/
def generate_daily_digest (provider : String → String → Except String String)
    (emails : List Email) : String :=
  if emails.isEmpty then "No emails to summarize for today."
  else
    match provider digestSystemPrompt (digestPrompt emails) with
    | .ok digest => digest
    | .error _ => "Unable to generate daily digest at this time."

/-! ## The DELETE_EMAIL branch of the `/chat` dispatcher (main.py lines 510-571)

The extracted `email_index` parameter is modelled as either a value `int()`
accepts (an integer) or one it rejects (raising `ValueError`/`TypeError`, which
the branch silently swallows); `fetch10` is the list returned by the re-fetch of
the 10 most recent inbox messages, and `search` is
`gmail_service.fetch_emails_with_query` applied to the built query string. -/

inductive IdxParam where
  | num (i : Int) : IdxParam
  | notNum : IdxParam

/-- Option 1: delete by index (1-based, converted to 0-based, selected only when
in range; anything else silently skipped). -/
def resolveByIndex (p : Option IdxParam) (fetch10 : List Email) : Option Email :=
  match p with
  | some (.num i) =>
    let index := i - 1
    if 0 ≤ index then
      if index < fetch10.length then fetch10.get? index.toNat else none
    else none
  | some .notNum => none
  | none => none

/-- Python truthiness of an optional string parameter (`None` and `""` falsy). -/
def truthyStr : Option String → Bool
  | some s => !s.isEmpty
  | none => false

/-- The three-step target resolution: index first, then sender search, then
subject-keyword search (first match wins). -/
def resolveDeleteTarget (p : Option IdxParam) (sender subject_keyword : Option String)
    (fetch10 : List Email) (search : String → List Email) : Option Email :=
  let afterIndex := resolveByIndex p fetch10
  let afterSender :=
    match afterIndex with
    | some e => some e
    | none =>
      if truthyStr sender then (search ("from:" ++ sender.getD "")).head? else none
  match afterSender with
  | some e => some e
  | none =>
    if truthyStr subject_keyword then
      (search ("subject:" ++ subject_keyword.getD "")).head?
    else none

/-- The clarification text of the no-match branch (main.py lines 565-570). -/
def clarificationMessage : String :=
  "I couldn't find an email matching that description. Please try:\n\n• **By sender**: \"Delete the email from John\" or \"Delete email from support@company.com\"\n• **By subject**: \"Delete the email about meeting\" or \"Delete email with subject invoice\"\n• **By number**: \"Delete email 2\" (refers to the emails I just showed you)\n• **Using UI**: Click the Delete button on any email card above"

/-- Observable outcome of the DELETE_EMAIL branch: the response fields plus the
list of message ids passed to `gmail_service.delete_email`. -/
structure DeleteOutcome where
  message : String
  deleted_email : Option (String × String × String)
  requires_clarification : Bool
  trashed : List String
deriving DecidableEq

/-- The DELETE_EMAIL branch: resolve, then either delete-and-confirm or ask for
clarification. -/
def handleDeleteIntent (p : Option IdxParam) (sender subject_keyword : Option String)
    (fetch10 : List Email) (search : String → List Email) : DeleteOutcome :=
  match resolveDeleteTarget p sender subject_keyword fetch10 search with
  | some e =>
    let email_sender := if e.sender_name.isEmpty then e.sender_email else e.sender_name
    { message :=
        "✅ Successfully deleted email from **" ++ email_sender ++ "**: \"" ++ e.subject ++ "\"",
      deleted_email := some (e.id, e.subject, email_sender),
      requires_clarification := false,
      trashed := [e.id] }
  | none =>
    { message := clarificationMessage,
      deleted_email := none,
      requires_clarification := true,
      trashed := [] }

/-! ## Shared helper lemmas and sample data -/

theorem pyTake_toList (n : Nat) (s : String) : (pyTake n s).toList = s.toList.take n := rfl

theorem pyTake_idem (n : Nat) (s : String) : pyTake n (pyTake n s) = pyTake n s := by
  show String.mk ((s.toList.take n).take n) = String.mk (s.toList.take n)
  rw [List.take_take, Nat.min_self]

theorem pyTake_length_le (n : Nat) (s : String) : (pyTake n s).length ≤ n := by
  show (s.toList.take n).length ≤ n
  simp

def sampleEmail1 : Email :=
  ⟨"id1", "Project Update", "Alice", "alice@example.com", "snippet one", "body one"⟩

def sampleEmail2 : Email :=
  ⟨"id2", "Invoice", "Bob", "bob@example.com", "snippet two", "body two"⟩

/-! ## C6 — prompt truncation -/

/-- C6: the summarization prompt embeds at most the first 2000 characters of the
email body (it depends only on that prefix, which has length at most 2000), and
the reply prompt embeds at most the first 1500 characters of the original body;
both prompt builders are pure functions, so for fixed inputs the prompt text is
fully deterministic. -/
theorem prompt_truncation :
    ∀ (subject content sender : String) (context : Option String),
      summarizePrompt subject content = summarizePrompt subject (pyTake 2000 content) ∧
      (pyTake 2000 content).length ≤ 2000 ∧
      replyPrompt sender subject content context
        = replyPrompt sender subject (pyTake 1500 content) context ∧
      (pyTake 1500 content).length ≤ 1500 := by
  intro subject content sender context
  refine ⟨?_, pyTake_length_le 2000 content, ?_, pyTake_length_le 1500 content⟩
  · unfold summarizePrompt
    rw [pyTake_idem]
  · unfold replyPrompt
    rw [pyTake_idem]

/-! ## C10 — the daily digest window -/

theorem digestEmailBlock_truncate (e : Email) :
    digestEmailBlock { e with snippet := pyTake 150 e.snippet } = digestEmailBlock e := by
  unfold digestEmailBlock
  rw [pyTake_idem]

/-- C10: `generate_daily_digest` on the empty list returns the fixed notice and
never consults the provider (the result does not depend on it); the digest prompt
depends only on the first 20 input messages, and each embedded snippet is
truncated to its first 150 characters (truncating every snippet to 150 characters
beforehand leaves the prompt unchanged). -/
theorem daily_digest_window :
    ∀ (p q : String → String → Except String String) (emails : List Email),
      generate_daily_digest p [] = "No emails to summarize for today." ∧
      generate_daily_digest p [] = generate_daily_digest q [] ∧
      digestPrompt emails = digestPrompt (emails.take 20) ∧
      digestPrompt emails
        = digestPrompt (emails.map (fun e => { e with snippet := pyTake 150 e.snippet })) := by
  intro p q emails
  refine ⟨rfl, rfl, ?_, ?_⟩
  · unfold digestPrompt
    rw [List.take_take, Nat.min_self]
  · unfold digestPrompt
    rw [← List.map_take, List.map_map]
    have hmap : (digestEmailBlock ∘ fun e => { e with snippet := pyTake 150 e.snippet })
        = digestEmailBlock := by
      funext e
      simp only [Function.comp_apply]
      exact digestEmailBlock_truncate e
    rw [hmap]

/-! ## C3 — delete-by-index priority -/

/-- C3: in the DELETE_EMAIL dispatch, whenever the extracted `email_index`
resolves (1-based) to a message of the re-fetched recent list, the resolved
target is that message and the outcome is independent of the search function —
the sender-scoped and subject-scoped searches are never consulted; and whenever
the index does not resolve (absent, non-numeric, or out of range), resolution
proceeds exactly as if no index had been given, falling through to the sender
and subject options instead of erroring. -/
theorem delete_index_priority :
    (∀ (p : Option IdxParam) (sender subject_keyword : Option String)
        (fetch10 : List Email) (e : Email) (s1 s2 : String → List Email),
        resolveByIndex p fetch10 = some e →
        resolveDeleteTarget p sender subject_keyword fetch10 s1 = some e ∧
        resolveDeleteTarget p sender subject_keyword fetch10 s1
          = resolveDeleteTarget p sender subject_keyword fetch10 s2) ∧
    (∀ (p : Option IdxParam) (sender subject_keyword : Option String)
        (fetch10 : List Email) (s : String → List Email),
        resolveByIndex p fetch10 = none →
        resolveDeleteTarget p sender subject_keyword fetch10 s
          = resolveDeleteTarget none sender subject_keyword fetch10 s) := by
  constructor
  · intro p sender subject_keyword fetch10 e s1 s2 h
    unfold resolveDeleteTarget
    rw [h]
    exact ⟨rfl, rfl⟩
  · intro p sender subject_keyword fetch10 s h
    unfold resolveDeleteTarget
    rw [h]
    rfl

/-- Witness for C3 at concrete inputs: index 2 resolves to the second fetched
message even though a sender is set and the two search functions disagree; and
the out-of-range index 5 falls through to the sender search. -/
theorem delete_index_priority_witness :
    (resolveDeleteTarget (some (.num 2)) (some "john") none [sampleEmail1, sampleEmail2]
        (fun _ => []) = some sampleEmail2 ∧
      resolveDeleteTarget (some (.num 2)) (some "john") none [sampleEmail1, sampleEmail2]
          (fun _ => [])
        = resolveDeleteTarget (some (.num 2)) (some "john") none [sampleEmail1, sampleEmail2]
            (fun _ => [sampleEmail1])) ∧
    resolveDeleteTarget (some (.num 5)) (some "john") none [sampleEmail1, sampleEmail2]
        (fun _ => [sampleEmail1])
      = resolveDeleteTarget none (some "john") none [sampleEmail1, sampleEmail2]
          (fun _ => [sampleEmail1]) := by
  constructor
  · exact delete_index_priority.1 (some (.num 2)) (some "john") none
      [sampleEmail1, sampleEmail2] sampleEmail2 (fun _ => []) (fun _ => [sampleEmail1]) rfl
  · exact delete_index_priority.2 (some (.num 5)) (some "john") none
      [sampleEmail1, sampleEmail2] (fun _ => [sampleEmail1]) rfl

/-! ## C4 — delete with no match asks for clarification -/

set_option maxRecDepth 20000 in
/-- C4: when none of the three resolution options yields a message, the
DELETE_EMAIL branch responds with the clarification message (which enumerates
the sender, subject, number and UI addressing options), sets the
`requires_clarification` flag, carries no `deleted_email` field, and performs no
delete call on the mailbox. -/
theorem delete_no_match_clarifies :
    ∀ (p : Option IdxParam) (sender subject_keyword : Option String)
      (fetch10 : List Email) (search : String → List Email),
      resolveDeleteTarget p sender subject_keyword fetch10 search = none →
      handleDeleteIntent p sender subject_keyword fetch10 search =
        { message := clarificationMessage,
          deleted_email := none,
          requires_clarification := true,
          trashed := [] } ∧
      strContains clarificationMessage ("**By sender**") = true ∧
      strContains clarificationMessage ("**By subject**") = true ∧
      strContains clarificationMessage ("**By number**") = true ∧
      strContains clarificationMessage ("**Using UI**") = true := by
  intro p sender subject_keyword fetch10 search h
  refine ⟨?_, by decide, by decide, by decide, by decide⟩
  unfold handleDeleteIntent
  rw [h]

/-- Witness for C4: a sender that matches nothing, with no index and no keyword,
produces the clarification outcome. -/
theorem delete_no_match_clarifies_witness :
    handleDeleteIntent none (some "nobody@x.com") none [] (fun _ => []) =
      { message := clarificationMessage,
        deleted_email := none,
        requires_clarification := true,
        trashed := [] } :=
  (delete_no_match_clarifies none (some "nobody@x.com") none [] (fun _ => []) (by decide)).1

/-! ## C2 — the Gemini retry bound -/

/-- One unfolding of the retry loop at positive fuel. -/
theorem geminiLoop_succ (attempts : Nat → AttemptOutcome) (fuel made : Nat)
    (lastError : Option String) :
    geminiLoop attempts (fuel + 1) made lastError =
      match attempts made with
      | .ok t => (made + 1, .ok (pyStrip t))
      | .err e =>
        if isRateLimitError e then
          if (MAX_RETRIES - fuel) + 1 > MAX_RETRIES then (made + 1, .error e)
          else geminiLoop attempts fuel (made + 1) (some e)
        else (made + 1, .error e) := rfl

/-- C2: a provider raising a rate-limit/quota error on every attempt makes
exactly 4 total attempts (1 initial + 3 retries) and then raises the last
error (the one from the fourth attempt); a provider raising a non-retryable
error makes exactly 1 attempt and propagates that error with no retry. -/
theorem gemini_retry_bound :
    (∀ attempts : Nat → AttemptOutcome,
        (∀ n, ∃ e, attempts n = .err e ∧ isRateLimitError e = true) →
        (gemini_generate_text attempts).1 = 4 ∧
        ∃ e, attempts 3 = .err e ∧ (gemini_generate_text attempts).2 = .error e) ∧
    (∀ (attempts : Nat → AttemptOutcome) (e : String),
        attempts 0 = .err e → isRateLimitError e = false →
        gemini_generate_text attempts = (1, .error e)) := by
  constructor
  · intro attempts h
    obtain ⟨e0, h0, r0⟩ := h 0
    obtain ⟨e1, h1, r1⟩ := h 1
    obtain ⟨e2, h2, r2⟩ := h 2
    obtain ⟨e3, h3, r3⟩ := h 3
    have key : gemini_generate_text attempts = (4, .error e3) := by
      show geminiLoop attempts (3 + 1) 0 none = (4, Except.error e3)
      rw [geminiLoop_succ, h0]
      simp only [r0, if_true, MAX_RETRIES]
      norm_num
      rw [show (3 : Nat) = 2 + 1 from rfl, geminiLoop_succ, h1]
      simp only [r1, if_true, MAX_RETRIES]
      norm_num
      rw [show (2 : Nat) = 1 + 1 from rfl, geminiLoop_succ, h2]
      simp only [r2, if_true, MAX_RETRIES]
      norm_num
      rw [show (1 : Nat) = 0 + 1 from rfl, geminiLoop_succ, h3]
      simp only [r3, if_true, MAX_RETRIES]
      norm_num
    rw [key]
    exact ⟨rfl, e3, h3, rfl⟩
  · intro attempts e h0 hr
    show geminiLoop attempts (3 + 1) 0 none = (1, Except.error e)
    rw [geminiLoop_succ, h0]
    simp [hr]

/-- Witness for C2: an always-rate-limited provider makes 4 attempts and raises
that error; an immediately failing non-retryable provider makes one attempt. -/
theorem gemini_retry_bound_witness :
    (gemini_generate_text (fun _ => .err "Error 429: quota exceeded")).1 = 4 ∧
    gemini_generate_text (fun _ => .err "boom") = (1, .error "boom") := by
  constructor
  · exact (gemini_retry_bound.1 (fun _ => .err "Error 429: quota exceeded")
      (fun _ => ⟨"Error 429: quota exceeded", rfl, by decide⟩)).1
  · exact gemini_retry_bound.2 (fun _ => .err "boom") "boom" rfl (by decide)

/-! ## C5 — the classification keyword fallback -/

/-- C5: when the classification provider call fails, or its response fails to
parse as a dict, `classify_intent` never raises; it answers by keyword on the
lowercased user message, in order: a message containing "mail", "inbox" or
"show" yields READ_EMAILS with limit 5 and confidence 0.5; otherwise one
containing "digest", "summar" or "categor" yields CATEGORIZE with limit 20 and
confidence 0.5; otherwise GENERAL_CHAT with confidence 0.0 and the
brain-unreachable message. -/
theorem classify_failure_fallback :
    ∀ (pr : Except String String) (msg : String),
      (match pr with
       | .error _ => True
       | .ok t => classifyParse t = none) →
      ((strContains (pyLower msg) ("mail") || strContains (pyLower msg) ("inbox")
          || strContains (pyLower msg) ("show")) = true →
        classify_intent pr msg =
          .obj [("intent", .str "READ_EMAILS"),
                ("parameters", .obj [("limit", .num ⟨5, 0⟩)]),
                ("confidence", .num ⟨5, 1⟩)]) ∧
      ((strContains (pyLower msg) ("mail") || strContains (pyLower msg) ("inbox")
          || strContains (pyLower msg) ("show")) = false →
        (strContains (pyLower msg) ("digest") || strContains (pyLower msg) ("summar")
           || strContains (pyLower msg) ("categor")) = true →
        classify_intent pr msg =
          .obj [("intent", .str "CATEGORIZE"),
                ("parameters", .obj [("limit", .num ⟨20, 0⟩)]),
                ("confidence", .num ⟨5, 1⟩)]) ∧
      ((strContains (pyLower msg) ("mail") || strContains (pyLower msg) ("inbox")
          || strContains (pyLower msg) ("show")) = false →
        (strContains (pyLower msg) ("digest") || strContains (pyLower msg) ("summar")
           || strContains (pyLower msg) ("categor")) = false →
        classify_intent pr msg =
          .obj [("intent", .str "GENERAL_CHAT"),
                ("parameters", .obj []),
                ("confidence", .num ⟨0, 0⟩),
                ("message", .str "I'm having trouble connecting to my AI brain right now. You can try asking me to 'read emails' directly.")]) := by
  intro pr msg hfail
  have hfb : classify_intent pr msg = classifyFallback msg := by
    cases pr with
    | error e => rfl
    | ok t =>
      simp only at hfail
      simp [classify_intent, hfail]
  refine ⟨?_, ?_, ?_⟩
  · intro h1
    rw [hfb]
    unfold classifyFallback
    rw [if_pos (by exact_mod_cast h1)]
  · intro h1 h2
    rw [hfb]
    unfold classifyFallback
    rw [if_neg (by simp [h1]), if_pos (by exact_mod_cast h2)]
  · intro h1 h2
    rw [hfb]
    unfold classifyFallback
    rw [if_neg (by simp [h1]), if_neg (by simp [h2])]

/-- Witness for C5 at concrete inputs, covering a failed call with an "inbox"
message, an unparseable response with a "summar" message, and a failed call with
a keyword-free message. -/
theorem classify_failure_fallback_witness :
    classify_intent (.error "ratelimit") "check my inbox"
      = .obj [("intent", .str "READ_EMAILS"),
              ("parameters", .obj [("limit", .num ⟨5, 0⟩)]),
              ("confidence", .num ⟨5, 1⟩)] ∧
    classify_intent (.ok "oops, not json") "please summarize today"
      = .obj [("intent", .str "CATEGORIZE"),
              ("parameters", .obj [("limit", .num ⟨20, 0⟩)]),
              ("confidence", .num ⟨5, 1⟩)] ∧
    classify_intent (.error "down") "hello there"
      = .obj [("intent", .str "GENERAL_CHAT"),
              ("parameters", .obj []),
              ("confidence", .num ⟨0, 0⟩),
              ("message", .str "I'm having trouble connecting to my AI brain right now. You can try asking me to 'read emails' directly.")] := by
  refine ⟨?_, ?_, ?_⟩
  · exact (classify_failure_fallback (.error "ratelimit") "check my inbox" trivial).1
      (by decide)
  · exact (classify_failure_fallback (.ok "oops, not json") "please summarize today"
      rfl).2.1 (by decide) (by decide)
  · exact (classify_failure_fallback (.error "down") "hello there" trivial).2.2
      (by decide) (by decide)

/-! ## C7 — no intent-set validation in `classify_intent` -/

def bogusIntentText : String :=
  "\x7b\"intent\": \"MAKE_COFFEE\", \"parameters\": \x7b\x7d, \"confidence\": 0.9\x7d"

/-- The intent string of a classification result, for discriminating results. -/
def intentStrOf (j : Json) : Option String :=
  match j with
  | .obj fs =>
    match jlookupLast fs ("intent") with
    | some (.str s) => some s
    | _ => none
  | _ => none

/-- C7 counterexample: a provider response that parses as JSON but whose intent
value lies outside the closed IntentKind set is returned to the caller as-is —
it is not treated as a parse failure and not replaced by the fallback result. -/
theorem classify_unvalidated_intent_cex :
    classify_intent (.ok bogusIntentText) "hi"
      = .obj [("intent", .str "MAKE_COFFEE"), ("parameters", .obj []),
              ("confidence", .num ⟨9, 1⟩)] ∧
    ¬ ("MAKE_COFFEE" ∈ intentKinds) ∧
    classify_intent (.ok bogusIntentText) "hi" ≠ classifyFallback "hi" := by
  refine ⟨rfl, by decide, ?_⟩
  intro h
  exact absurd (congrArg intentStrOf h) (by decide)

/-- C7 amended: `classify_intent` performs no validation of the parsed intent
field — any provider response parsing to a JSON dict is returned as-is, even
when its intent value is outside the closed IntentKind set; only responses that
fail to parse as a dict are handled by the fallback policy. -/
theorem classify_returns_parsed_dict_as_is :
    (∀ (t msg : String) (fields : List (String × Json)),
        classifyParse t = some fields → classify_intent (.ok t) msg = .obj fields) ∧
    (∀ t msg : String, classifyParse t = none →
        classify_intent (.ok t) msg = classifyFallback msg) := by
  constructor
  · intro t msg fields h
    simp [classify_intent, h]
  · intro t msg h
    simp [classify_intent, h]

/-- Witness for C7's amended statement at concrete inputs. -/
theorem classify_returns_parsed_dict_as_is_witness :
    classify_intent (.ok bogusIntentText) "x"
      = .obj [("intent", .str "MAKE_COFFEE"), ("parameters", .obj []),
              ("confidence", .num ⟨9, 1⟩)] ∧
    classify_intent (.ok "oops") "x" = classifyFallback "x" :=
  ⟨classify_returns_parsed_dict_as_is.1 bogusIntentText "x"
      [("intent", .str "MAKE_COFFEE"), ("parameters", .obj []), ("confidence", .num ⟨9, 1⟩)]
      rfl,
   classify_returns_parsed_dict_as_is.2 "oops" "x" rfl⟩

/-! ## C8 — failure propagation around dispatch-time summarization -/

/-- C8 counterexample: when the provider call inside a summarization fails, the
failure IS replaced by a substituted default summary string — it does not reach
the request boundary as an error. -/
theorem summarize_failure_substitutes_default_cex :
    summarize_email (fun _ _ => .error "429 Resource exhausted") "the body" "the subject"
      = "Summary unavailable (AI service busy)" := rfl

/-- If no attempt ever succeeds, the retry loop's result is an error — the
provider layer never fabricates a success. -/
theorem geminiLoop_error_of_all_fail
    (attempts : Nat → AttemptOutcome) (hne : ∀ n t, attempts n ≠ .ok t) :
    ∀ (fuel made : Nat) (lastError : Option String),
      ∃ e, (geminiLoop attempts fuel made lastError).2 = .error e := by
  intro fuel
  induction fuel with
  | zero =>
    intro made lastError
    cases lastError with
    | some e => exact ⟨e, rfl⟩
    | none => exact ⟨"Unknown error in Gemini provider", rfl⟩
  | succ fuel ih =>
    intro made lastError
    rw [geminiLoop_succ]
    cases hm : attempts made with
    | ok t => exact absurd hm (hne made t)
    | err e =>
      by_cases hrl : isRateLimitError e
      · simp only [hrl, if_true]
        by_cases hb : (MAX_RETRIES - fuel) + 1 > MAX_RETRIES
        · simp only [hb, if_pos]
          exact ⟨e, rfl⟩
        · simp only [hb, if_neg, if_false]
          exact ih (made + 1) (some e)
      · simp only [hrl, if_false]
        exact ⟨e, rfl⟩

/-- C8 amended: the provider layer (`generate_text`) never substitutes a default
string — when no attempt succeeds its result is an error — but
`AIService.summarize_email` catches dispatch-time provider failures and
substitutes the fixed string "Summary unavailable (AI service busy)", so a
summarization failure does not propagate to the request boundary. -/
theorem provider_never_substitutes_service_does :
    (∀ attempts : Nat → AttemptOutcome,
        (∀ (n : Nat) (t : String), attempts n ≠ .ok t) →
        ∃ e, (gemini_generate_text attempts).2 = .error e) ∧
    (∀ (provider : String → String → Except String String) (content subject e : String),
        provider summarizeSystemPrompt (summarizePrompt subject content) = .error e →
        summarize_email provider content subject = "Summary unavailable (AI service busy)") := by
  constructor
  · intro attempts hne
    exact geminiLoop_error_of_all_fail attempts hne (MAX_RETRIES + 1) 0 none
  · intro provider content subject e h
    simp [summarize_email, h]

/-- Witness for C8's amended statement at concrete inputs. -/
theorem provider_never_substitutes_service_does_witness :
    (∃ e, (gemini_generate_text (fun _ => .err "boom")).2 = .error e) ∧
    summarize_email (fun _ _ => .error "quota") "b" "s"
      = "Summary unavailable (AI service busy)" :=
  ⟨provider_never_substitutes_service_does.1 (fun _ => .err "boom")
      (fun _ _ h => AttemptOutcome.noConfusion h),
   provider_never_substitutes_service_does.2 (fun _ _ => .error "quota") "b" "s" "quota" rfl⟩

/-! ## C1 — categorization bucket completeness -/

/-- Membership in at least one bucket of the categorization result. -/
def inSomeBucket (e : Email) (m : CategoryMap) : Prop :=
  e ∈ m.work ∨ e ∈ m.personal ∨ e ∈ m.promotions ∨ e ∈ m.urgent

theorem addToBuckets_mono {e : Email} {m : CategoryMap} (e' : Email) (cats : List String)
    (h : inSomeBucket e m) : inSomeBucket e (addToBuckets m e' cats) := by
  induction cats generalizing m with
  | nil => exact h
  | cons c cs ih =>
    show inSomeBucket e (List.foldl _ _ cs)
    apply ih
    rcases h with h | h | h | h <;>
      · dsimp only
        split_ifs <;> simp [inSomeBucket, List.mem_append, h]

theorem addToBuckets_self {e : Email} {c : String} (cats : List String)
    (hc : c ∈ cats) (hk : c = "Work" ∨ c = "Personal" ∨ c = "Promotions" ∨ c = "Urgent") :
    ∀ m : CategoryMap, inSomeBucket e (addToBuckets m e cats) := by
  induction cats with
  | nil => cases hc
  | cons d ds ih =>
    intro m
    show inSomeBucket e (List.foldl _ _ ds)
    rcases List.mem_cons.mp hc with rfl | hmem
    · have hin : inSomeBucket e
          (if c = "Work" then { m with work := m.work ++ [e] }
           else if c = "Personal" then { m with personal := m.personal ++ [e] }
           else if c = "Promotions" then { m with promotions := m.promotions ++ [e] }
           else if c = "Urgent" then { m with urgent := m.urgent ++ [e] }
           else m) := by
        rcases hk with rfl | rfl | rfl | rfl <;> simp [inSomeBucket]
      exact addToBuckets_mono e ds hin
    · exact ih hmem _

theorem buildCats_ok_mono {e : Email} :
    ∀ (rest : List Email) (idx : Nat) (fields : List (String × Json)) (m m' : CategoryMap),
      buildCats rest idx fields m = .ok m' → inSomeBucket e m → inSomeBucket e m' := by
  intro rest
  induction rest with
  | nil =>
    intro idx fields m m' h hm
    cases h
    exact hm
  | cons a rest ih =>
    intro idx fields m m' h hm
    rw [buildCats] at h
    cases heff : effCats fields idx with
    | error u => rw [heff] at h; cases h
    | ok cats =>
      rw [heff] at h
      exact ih (idx + 1) fields _ m' h (addToBuckets_mono a cats hm)

theorem buildCats_member :
    ∀ (rest : List Email) (idx : Nat) (fields : List (String × Json)) (m m' : CategoryMap),
      buildCats rest idx fields m = .ok m' →
      ∀ (j : Nat) (hj : j < rest.length) (cs : List String),
        effCats fields (idx + j) = .ok cs →
        (∃ c ∈ cs, c = "Work" ∨ c = "Personal" ∨ c = "Promotions" ∨ c = "Urgent") →
        inSomeBucket (rest.get ⟨j, hj⟩) m' := by
  intro rest
  induction rest with
  | nil =>
    intro idx fields m m' h j hj
    exact absurd hj (by simp)
  | cons a rest ih =>
    intro idx fields m m' h j hj cs hcs hex
    rw [buildCats] at h
    cases heff : effCats fields idx with
    | error u => rw [heff] at h; cases h
    | ok cats =>
      rw [heff] at h
      cases j with
      | zero =>
        have hcats : cats = cs := by
          rw [Nat.add_zero] at hcs
          rw [heff] at hcs
          exact (Except.ok.injEq _ _ ▸ hcs : cats = cs)
        subst hcats
        obtain ⟨c, hc, hk⟩ := hex
        exact buildCats_ok_mono rest (idx + 1) fields _ m' h
          (addToBuckets_self cats hc hk m)
      | succ j =>
        have hj' : j < rest.length := by simpa using hj
        have hcs' : effCats fields ((idx + 1) + j) = .ok cs := by
          rw [show (idx + 1) + j = idx + (j + 1) by omega]
          exact hcs
        exact ih (idx + 1) fields _ m' h j hj' cs hcs' hex

def spamCatText : String := "\x7b\"0\": [\"Spam\"]\x7d"

/-- C1 counterexample: on the single-message input with a successfully parsed
categorization that assigns only the unknown category name "Spam", the committed
result has all four buckets empty — the input message appears in no bucket, so
the completeness half of the claim fails on the success path. -/
theorem categorize_dropped_message_cex :
    categorize_emails [sampleEmail1] (.ok spamCatText) = emptyCats ∧
    ¬ inSomeBucket sampleEmail1 (categorize_emails [sampleEmail1] (.ok spamCatText)) := by
  refine ⟨rfl, ?_⟩
  rw [show categorize_emails [sampleEmail1] (.ok spamCatText) = emptyCats from rfl]
  simp [inSomeBucket, emptyCats]

/-- C1 amended: on any non-empty input, a categorization provider failure — and
likewise an unparseable or non-dict response, or a `TypeError` raised while
assigning — commits the fallback in which every message appears in exactly the
`Personal` bucket (the other three empty); on a successfully parsed dict
response the assignment loop's map is committed, and every message whose
effective category list (its parsed entry, or the `Personal` default when its
index is absent) names at least one of the four known categories appears in at
least one bucket.  (A message all of whose assigned names are unknown appears in
no bucket — see the counterexample.) -/
theorem categorize_completeness_amended :
    (∀ (emails : List Email) (err : String), emails ≠ [] →
        categorize_emails emails (.error err) = allPersonal emails) ∧
    (∀ (emails : List Email) (text : String), emails ≠ [] →
        (∀ fields, jsonLoads (stripFences text) ≠ some (.obj fields)) →
        categorize_emails emails (.ok text) = allPersonal emails) ∧
    (∀ (emails : List Email) (text : String) (fields : List (String × Json)),
        emails ≠ [] →
        jsonLoads (stripFences text) = some (.obj fields) →
        buildCats emails 0 fields emptyCats = .error () →
        categorize_emails emails (.ok text) = allPersonal emails) ∧
    (∀ (emails : List Email) (text : String) (fields : List (String × Json))
        (m : CategoryMap),
        jsonLoads (stripFences text) = some (.obj fields) →
        buildCats emails 0 fields emptyCats = .ok m →
        categorize_emails emails (.ok text) = m ∧
        ∀ (i : Nat) (hi : i < emails.length) (cs : List String),
          effCats fields i = .ok cs →
          (∃ c ∈ cs, c = "Work" ∨ c = "Personal" ∨ c = "Promotions" ∨ c = "Urgent") →
          inSomeBucket (emails.get ⟨i, hi⟩) m) := by
  refine ⟨?_, ?_, ?_, ?_⟩
  · intro emails err hne
    cases emails with
    | nil => exact absurd rfl hne
    | cons a rest => rfl
  · intro emails text hne hnp
    cases emails with
    | nil => exact absurd rfl hne
    | cons a rest =>
      cases hjl : jsonLoads (stripFences text) with
      | none => simp [categorize_emails, hjl]
      | some v =>
        cases v with
        | obj fields => exact absurd hjl (hnp fields)
        | null => simp [categorize_emails, hjl]
        | bool b => simp [categorize_emails, hjl]
        | num q => simp [categorize_emails, hjl]
        | str s => simp [categorize_emails, hjl]
        | arr xs => simp [categorize_emails, hjl]
  · intro emails text fields hne hjl hb
    cases emails with
    | nil => exact absurd rfl hne
    | cons a rest => simp [categorize_emails, hjl, hb]
  · intro emails text fields m hjl hb
    constructor
    · cases emails with
      | nil =>
        cases hb
        rfl
      | cons a rest => simp [categorize_emails, hjl, hb]
    · intro i hi cs hcs hex
      exact buildCats_member emails 0 fields emptyCats m hb i hi cs
        (by simpa using hcs) hex

def workCatText : String := "\x7b\"0\": [\"Work\"]\x7d"

def nullCatText : String := "\x7b\"0\": null\x7d"

/-- Witness for C1's amended statement at concrete inputs: a provider failure,
an unparseable response, a `TypeError`-raising assignment (a null entry), and a
successful assignment to the Work bucket. -/
theorem categorize_completeness_amended_witness :
    categorize_emails [sampleEmail1] (.error "boom") = allPersonal [sampleEmail1] ∧
    categorize_emails [sampleEmail1] (.ok "not json") = allPersonal [sampleEmail1] ∧
    categorize_emails [sampleEmail1] (.ok nullCatText) = allPersonal [sampleEmail1] ∧
    categorize_emails [sampleEmail1] (.ok workCatText) = ⟨[sampleEmail1], [], [], []⟩ ∧
    inSomeBucket sampleEmail1 ⟨[sampleEmail1], [], [], []⟩ := by
  have h4 := categorize_completeness_amended.2.2.2 [sampleEmail1] workCatText
    [("0", .arr [.str "Work"])] ⟨[sampleEmail1], [], [], []⟩ rfl rfl
  refine ⟨categorize_completeness_amended.1 [sampleEmail1] "boom" (by simp),
          categorize_completeness_amended.2.1 [sampleEmail1] "not json" (by simp) ?_,
          categorize_completeness_amended.2.2.1 [sampleEmail1] nullCatText [("0", .null)]
            (by simp) rfl rfl,
          h4.1, ?_⟩
  · intro fields h
    have hn : jsonLoads (stripFences "not json") = none := rfl
    rw [hn] at h
    cases h
  · have := h4.2 0 (by simp) ["Work"] rfl ⟨"Work", by simp, Or.inl rfl⟩
    simpa using this

/-! ## C9 — fence stripping and structured parsing

The markdown wrapper the claim quantifies over. -/

def wrapFence (tag t : String) : String := "```" ++ tag ++ "\n" ++ t ++ "\n```"

/-! ### Whitespace algebra

`trimWs` is the right-trim half of Python's `str.strip()`; the lemmas below
relate it to the left drops used by the JSON scanner (`skipWs`) and by
`pyStripList`. -/

/-- Right-trim by Python whitespace. -/
def trimWs (l : List Char) : List Char := l.rdropWhile isPyWs

theorem pyStripList_eq_trimWs (l : List Char) :
    pyStripList l = trimWs (l.dropWhile isPyWs) := rfl

theorem isJsonWs_isPyWs {c : Char} (h : isJsonWs c = true) : isPyWs c = true := by
  simp only [isJsonWs, Bool.or_eq_true, decide_eq_true_eq] at h
  rcases h with ((rfl | rfl) | rfl) | rfl <;> rfl

theorem not_isPyWs_not_isJsonWs {c : Char} (h : isPyWs c = false) : isJsonWs c = false := by
  by_cases hj : isJsonWs c = true
  · rw [isJsonWs_isPyWs hj] at h
    cases h
  · simpa using hj

theorem trimWs_nil : trimWs [] = [] := rfl

theorem trimWs_cons (c : Char) (m : List Char) :
    trimWs (c :: m) = if isPyWs c = true ∧ trimWs m = [] then [] else c :: trimWs m := by
  unfold trimWs List.rdropWhile
  rw [List.reverse_cons, List.dropWhile_append]
  by_cases hm : (m.reverse.dropWhile isPyWs).isEmpty
  · rw [if_pos hm]
    have hmnil : m.reverse.dropWhile isPyWs = [] := by simpa using hm
    by_cases hc : isPyWs c = true
    · rw [if_pos ⟨hc, by simp [hmnil]⟩]
      simp [List.dropWhile_cons, hc]
    · rw [if_neg (by simp [hc])]
      simp [List.dropWhile_cons, hc, hmnil]
  · rw [if_neg hm]
    have hmne : m.reverse.dropWhile isPyWs ≠ [] := by simpa using hm
    rw [if_neg (by simp [hmne])]
    simp

theorem trimWs_cons_of_not_ws {c : Char} (hc : isPyWs c = false) (m : List Char) :
    trimWs (c :: m) = c :: trimWs m := by
  rw [trimWs_cons, if_neg (by simp [hc])]

theorem trimWs_cons_of_ne_nil {m : List Char} (hm : trimWs m ≠ []) (c : Char) :
    trimWs (c :: m) = c :: trimWs m := by
  rw [trimWs_cons, if_neg (by simp [hm])]

theorem trimWs_eq_nil_of_all {m : List Char} (h : ∀ x ∈ m, isPyWs x = true) :
    trimWs m = [] := by
  unfold trimWs List.rdropWhile
  rw [List.dropWhile_eq_nil_iff.mpr (by simpa using h)]
  rfl

theorem all_ws_of_trimWs_eq_nil {m : List Char} (h : trimWs m = []) :
    ∀ x ∈ m, isPyWs x = true := by
  unfold trimWs List.rdropWhile at h
  rw [List.reverse_eq_nil_iff, List.dropWhile_eq_nil_iff] at h
  intro x hx
  exact h x (List.mem_reverse.mpr hx)

/-- Left-dropping JSON whitespace commutes with right-trimming Python
whitespace. -/
theorem skipWs_trimWs (m : List Char) : skipWs (trimWs m) = trimWs (skipWs m) := by
  induction m with
  | nil => rfl
  | cons c m ih =>
    by_cases hq : isJsonWs c = true
    · have hp : isPyWs c = true := isJsonWs_isPyWs hq
      have hsk : skipWs (c :: m) = skipWs m := by simp [skipWs, List.dropWhile_cons, hq]
      by_cases hm : trimWs m = []
      · have hall : ∀ x ∈ m, isPyWs x = true := all_ws_of_trimWs_eq_nil hm
        have h1 : trimWs (c :: m) = [] := by rw [trimWs_cons, if_pos ⟨hp, hm⟩]
        have h2 : trimWs (skipWs m) = [] := by
          refine trimWs_eq_nil_of_all ?_
          intro x hx
          exact hall x ((List.dropWhile_suffix isJsonWs).subset hx)
        rw [h1, hsk, h2]
        rfl
      · rw [trimWs_cons_of_ne_nil hm, hsk]
        show skipWs (c :: trimWs m) = _
        rw [show skipWs (c :: trimWs m) = skipWs (trimWs m) by
          simp [skipWs, List.dropWhile_cons, hq]]
        exact ih
    · have hsk : skipWs (c :: m) = c :: m := by
        simp [skipWs, List.dropWhile_cons, hq]
      rw [hsk]
      rw [trimWs_cons]
      by_cases hcm : isPyWs c = true ∧ trimWs m = []
      · rw [if_pos hcm]
        rfl
      · rw [if_neg hcm]
        show skipWs (c :: trimWs m) = _
        simp [skipWs, List.dropWhile_cons, hq]

/-- Dropping the JSON whitespace first does not change the Python-whitespace
left drop. -/
theorem dropWhile_pyWs_skipWs (l : List Char) :
    (skipWs l).dropWhile isPyWs = l.dropWhile isPyWs := by
  induction l with
  | nil => rfl
  | cons c l ih =>
    by_cases hq : isJsonWs c = true
    · have hp : isPyWs c = true := isJsonWs_isPyWs hq
      rw [show skipWs (c :: l) = skipWs l by simp [skipWs, List.dropWhile_cons, hq]]
      rw [show (c :: l).dropWhile isPyWs = l.dropWhile isPyWs by
        simp [List.dropWhile_cons, hp]]
      exact ih
    · rw [show skipWs (c :: l) = c :: l by simp [skipWs, List.dropWhile_cons, hq]]

/-! ### Character-class facts -/

theorem digit_not_ws {c : Char} (h : c.isDigit = true) : isPyWs c = false := by
  by_cases hw : isPyWs c = true
  · exfalso
    simp only [isPyWs, Bool.or_eq_true, decide_eq_true_eq] at hw
    rcases hw with ((((rfl | rfl) | rfl) | rfl) | rfl) | rfl <;> exact absurd h (by decide)
  · simpa using hw

theorem hex_not_ws {c : Char} {n : Nat} (h : hexVal c = some n) : isPyWs c = false := by
  by_cases hw : isPyWs c = true
  · exfalso
    simp only [isPyWs, Bool.or_eq_true, decide_eq_true_eq] at hw
    rcases hw with ((((rfl | rfl) | rfl) | rfl) | rfl) | rfl <;>
      exact Option.noConfusion (h.symm.trans rfl)
  · simpa using hw

/-! ### Step equations of the string-literal scanner

All heads are concrete characters, so these are definitional. -/

theorem psa_nil (acc : List Char) : parseStringAux acc [] = none := rfl

theorem psa_close (acc m : List Char) :
    parseStringAux acc (dquote :: m) = some (String.mk acc.reverse, m) := by
  rw [parseStringAux.eq_def]
  show (if dquote = dquote then _ else _) = _
  rw [if_pos rfl]

theorem psa_bs_nil (acc : List Char) : parseStringAux acc [bslash] = none := by
  rw [parseStringAux.eq_def]
  show (if bslash = dquote then _ else _) = _
  rw [if_neg (by decide), if_pos rfl]

theorem psa_esc_dq (acc r : List Char) :
    parseStringAux acc (bslash :: dquote :: r) = parseStringAux (dquote :: acc) r := by
  rw [parseStringAux.eq_def]
  show (if bslash = dquote then _ else _) = _
  rw [if_neg (by decide), if_pos rfl]
  show (if dquote = dquote then _ else _) = _
  rw [if_pos rfl]

theorem psa_esc_bs (acc r : List Char) :
    parseStringAux acc (bslash :: bslash :: r) = parseStringAux (bslash :: acc) r := by
  rw [parseStringAux.eq_def]
  show (if bslash = dquote then _ else _) = _
  rw [if_neg (by decide), if_pos rfl]
  show (if bslash = dquote then _ else _) = _
  rw [if_neg (by decide), if_pos rfl]

theorem psa_esc_slash (acc r : List Char) :
    parseStringAux acc (bslash :: '/' :: r) = parseStringAux ('/' :: acc) r := by
  rw [parseStringAux.eq_def]
  show (if bslash = dquote then _ else _) = _
  rw [if_neg (by decide), if_pos rfl]
  show (if ('/' : Char) = dquote then _ else _) = _
  rw [if_neg (by decide), if_neg (by decide), if_pos rfl]

theorem psa_esc_b (acc r : List Char) :
    parseStringAux acc (bslash :: 'b' :: r) = parseStringAux (Char.ofNat 8 :: acc) r := by
  rw [parseStringAux.eq_def]
  show (if bslash = dquote then _ else _) = _
  rw [if_neg (by decide), if_pos rfl]
  show (if ('b' : Char) = dquote then _ else _) = _
  rw [if_neg (by decide), if_neg (by decide), if_neg (by decide), if_pos rfl]

theorem psa_esc_f (acc r : List Char) :
    parseStringAux acc (bslash :: 'f' :: r) = parseStringAux (Char.ofNat 12 :: acc) r := by
  rw [parseStringAux.eq_def]
  show (if bslash = dquote then _ else _) = _
  rw [if_neg (by decide), if_pos rfl]
  show (if ('f' : Char) = dquote then _ else _) = _
  rw [if_neg (by decide), if_neg (by decide), if_neg (by decide), if_neg (by decide),
    if_pos rfl]

theorem psa_esc_n (acc r : List Char) :
    parseStringAux acc (bslash :: 'n' :: r) = parseStringAux ('\n' :: acc) r := by
  rw [parseStringAux.eq_def]
  show (if bslash = dquote then _ else _) = _
  rw [if_neg (by decide), if_pos rfl]
  show (if ('n' : Char) = dquote then _ else _) = _
  rw [if_neg (by decide), if_neg (by decide), if_neg (by decide), if_neg (by decide),
    if_neg (by decide), if_pos rfl]

theorem psa_esc_r (acc r : List Char) :
    parseStringAux acc (bslash :: 'r' :: r) = parseStringAux ('\r' :: acc) r := by
  rw [parseStringAux.eq_def]
  show (if bslash = dquote then _ else _) = _
  rw [if_neg (by decide), if_pos rfl]
  show (if ('r' : Char) = dquote then _ else _) = _
  rw [if_neg (by decide), if_neg (by decide), if_neg (by decide), if_neg (by decide),
    if_neg (by decide), if_neg (by decide), if_pos rfl]

theorem psa_esc_t (acc r : List Char) :
    parseStringAux acc (bslash :: 't' :: r) = parseStringAux ('\t' :: acc) r := by
  rw [parseStringAux.eq_def]
  show (if bslash = dquote then _ else _) = _
  rw [if_neg (by decide), if_pos rfl]
  show (if ('t' : Char) = dquote then _ else _) = _
  rw [if_neg (by decide), if_neg (by decide), if_neg (by decide), if_neg (by decide),
    if_neg (by decide), if_neg (by decide), if_neg (by decide), if_pos rfl]

theorem psa_u (acc : List Char) {a b c2 d : Char} (r2 : List Char)
    {ha hb hc hd : Nat} (h1 : hexVal a = some ha) (h2 : hexVal b = some hb)
    (h3 : hexVal c2 = some hc) (h4 : hexVal d = some hd) :
    parseStringAux acc (bslash :: 'u' :: a :: b :: c2 :: d :: r2)
      = parseStringAux (Char.ofNat (((ha * 16 + hb) * 16 + hc) * 16 + hd) :: acc) r2 := by
  rw [parseStringAux.eq_def]
  show (if bslash = dquote then _ else _) = _
  rw [if_neg (by decide), if_pos rfl]
  show (if ('u' : Char) = dquote then _ else _) = _
  rw [if_neg (by decide), if_neg (by decide), if_neg (by decide), if_neg (by decide),
    if_neg (by decide), if_neg (by decide), if_neg (by decide), if_neg (by decide),
    if_pos rfl]
  show (match hexVal a, hexVal b, hexVal c2, hexVal d with
        | some ha, some hb, some hc, some hd =>
          parseStringAux (Char.ofNat (((ha * 16 + hb) * 16 + hc) * 16 + hd) :: acc) r2
        | _, _, _, _ => none) = _
  rw [h1, h2, h3, h4]

theorem psa_u_bad (acc : List Char) {a b c2 d : Char} (r2 : List Char)
    (h : hexVal a = none ∨ hexVal b = none ∨ hexVal c2 = none ∨ hexVal d = none) :
    parseStringAux acc (bslash :: 'u' :: a :: b :: c2 :: d :: r2) = none := by
  rw [parseStringAux.eq_def]
  show (if bslash = dquote then _ else _) = _
  rw [if_neg (by decide), if_pos rfl]
  show (if ('u' : Char) = dquote then _ else _) = _
  rw [if_neg (by decide), if_neg (by decide), if_neg (by decide), if_neg (by decide),
    if_neg (by decide), if_neg (by decide), if_neg (by decide), if_neg (by decide),
    if_pos rfl]
  show (match hexVal a, hexVal b, hexVal c2, hexVal d with
        | some ha, some hb, some hc, some hd =>
          parseStringAux (Char.ofNat (((ha * 16 + hb) * 16 + hc) * 16 + hd) :: acc) r2
        | _, _, _, _ => none) = none
  rcases hha : hexVal a with _ | va <;> rcases hhb : hexVal b with _ | vb <;>
    rcases hhc : hexVal c2 with _ | vc <;> rcases hhd : hexVal d with _ | vd <;>
      simp_all

theorem psa_u_short (acc r : List Char) (hr : r.length < 4) :
    parseStringAux acc (bslash :: 'u' :: r) = none := by
  have step : ∀ m : List Char, m.length < 4 →
      (match m with
       | a :: b :: c2 :: d :: r2 =>
         (match hexVal a, hexVal b, hexVal c2, hexVal d with
          | some ha, some hb, some hc, some hd =>
            parseStringAux (Char.ofNat (((ha * 16 + hb) * 16 + hc) * 16 + hd) :: acc) r2
          | _, _, _, _ => none)
       | _ => (none : Option (String × List Char))) = none := by
    intro m hm
    match m with
    | [] => rfl
    | [a] => rfl
    | [a, b] => rfl
    | [a, b, c2] => rfl
    | a :: b :: c2 :: d :: r2 => simp at hm; omega
  rw [parseStringAux.eq_def]
  show (if bslash = dquote then _ else _) = _
  rw [if_neg (by decide), if_pos rfl]
  show (if ('u' : Char) = dquote then _ else _) = _
  rw [if_neg (by decide), if_neg (by decide), if_neg (by decide), if_neg (by decide),
    if_neg (by decide), if_neg (by decide), if_neg (by decide), if_neg (by decide),
    if_pos rfl]
  exact step r hr

theorem psa_esc_other (acc : List Char) {e : Char} (r : List Char)
    (h1 : ¬ e = dquote) (h2 : ¬ e = bslash) (h3 : ¬ e = '/') (h4 : ¬ e = 'b')
    (h5 : ¬ e = 'f') (h6 : ¬ e = 'n') (h7 : ¬ e = 'r') (h8 : ¬ e = 't')
    (h9 : ¬ e = 'u') :
    parseStringAux acc (bslash :: e :: r) = none := by
  rw [parseStringAux.eq_def]
  show (if bslash = dquote then _ else _) = _
  rw [if_neg (by decide), if_pos rfl]
  show (if e = dquote then _ else _) = _
  rw [if_neg h1, if_neg h2, if_neg h3, if_neg h4, if_neg h5, if_neg h6, if_neg h7,
    if_neg h8, if_neg h9]

theorem psa_ctrl (acc : List Char) {c : Char} (m : List Char)
    (h1 : ¬ c = dquote) (h2 : ¬ c = bslash) (h3 : c.toNat < 32) :
    parseStringAux acc (c :: m) = none := by
  rw [parseStringAux.eq_def]
  show (if c = dquote then _ else _) = _
  rw [if_neg h1, if_neg h2, if_pos h3]

theorem psa_raw (acc : List Char) {c : Char} (m : List Char)
    (h1 : ¬ c = dquote) (h2 : ¬ c = bslash) (h3 : ¬ c.toNat < 32) :
    parseStringAux acc (c :: m) = parseStringAux (c :: acc) m := by
  rw [parseStringAux.eq_def]
  show (if c = dquote then _ else _) = _
  rw [if_neg h1, if_neg h2, if_neg h3]

/-- Right-trim transport through the string-literal scanner: trimming the input
trims exactly the unconsumed remainder. -/
theorem parseStringAux_trimWs :
    ∀ (n : Nat) (l : List Char), l.length ≤ n →
      ∀ (acc : List Char) (s : String) (rest : List Char),
        parseStringAux acc l = some (s, rest) →
        parseStringAux acc (trimWs l) = some (s, trimWs rest) := by
  intro n
  induction n with
  | zero =>
    intro l hl acc s rest h
    have : l = [] := List.eq_nil_of_length_eq_zero (by omega)
    subst this
    exact absurd h (by simp [psa_nil])
  | succ n ih =>
    intro l hl acc s rest h
    match l with
    | [] => exact absurd h (by simp [psa_nil])
    | c :: m =>
      by_cases h1 : c = dquote
      · subst h1
        rw [psa_close] at h
        simp only [Option.some.injEq, Prod.mk.injEq] at h
        obtain ⟨rfl, rfl⟩ := h
        rw [trimWs_cons_of_not_ws (by decide), psa_close]
      · by_cases h2 : c = bslash
        · subst h2
          match m with
          | [] => exact absurd h (by simp [psa_bs_nil])
          | e :: r =>
            by_cases he1 : e = dquote
            · subst he1
              rw [psa_esc_dq] at h
              have ihr := ih r (by simp at hl; omega) _ s rest h
              rw [trimWs_cons_of_not_ws (by decide), trimWs_cons_of_not_ws (by decide),
                psa_esc_dq]
              exact ihr
            · by_cases he2 : e = bslash
              · subst he2
                rw [psa_esc_bs] at h
                have ihr := ih r (by simp at hl; omega) _ s rest h
                rw [trimWs_cons_of_not_ws (by decide), trimWs_cons_of_not_ws (by decide),
                  psa_esc_bs]
                exact ihr
              · by_cases he3 : e = '/'
                · subst he3
                  rw [psa_esc_slash] at h
                  have ihr := ih r (by simp at hl; omega) _ s rest h
                  rw [trimWs_cons_of_not_ws (by decide), trimWs_cons_of_not_ws (by decide),
                    psa_esc_slash]
                  exact ihr
                · by_cases he4 : e = 'b'
                  · subst he4
                    rw [psa_esc_b] at h
                    have ihr := ih r (by simp at hl; omega) _ s rest h
                    rw [trimWs_cons_of_not_ws (by decide), trimWs_cons_of_not_ws (by decide),
                      psa_esc_b]
                    exact ihr
                  · by_cases he5 : e = 'f'
                    · subst he5
                      rw [psa_esc_f] at h
                      have ihr := ih r (by simp at hl; omega) _ s rest h
                      rw [trimWs_cons_of_not_ws (by decide),
                        trimWs_cons_of_not_ws (by decide), psa_esc_f]
                      exact ihr
                    · by_cases he6 : e = 'n'
                      · subst he6
                        rw [psa_esc_n] at h
                        have ihr := ih r (by simp at hl; omega) _ s rest h
                        rw [trimWs_cons_of_not_ws (by decide),
                          trimWs_cons_of_not_ws (by decide), psa_esc_n]
                        exact ihr
                      · by_cases he7 : e = 'r'
                        · subst he7
                          rw [psa_esc_r] at h
                          have ihr := ih r (by simp at hl; omega) _ s rest h
                          rw [trimWs_cons_of_not_ws (by decide),
                            trimWs_cons_of_not_ws (by decide), psa_esc_r]
                          exact ihr
                        · by_cases he8 : e = 't'
                          · subst he8
                            rw [psa_esc_t] at h
                            have ihr := ih r (by simp at hl; omega) _ s rest h
                            rw [trimWs_cons_of_not_ws (by decide),
                              trimWs_cons_of_not_ws (by decide), psa_esc_t]
                            exact ihr
                          · by_cases he9 : e = 'u'
                            · subst he9
                              match r with
                              | [] =>
                                rw [psa_u_short acc [] (by simp)] at h
                                exact Option.noConfusion h
                              | [a] =>
                                rw [psa_u_short acc [a] (by simp)] at h
                                exact Option.noConfusion h
                              | [a, b] =>
                                rw [psa_u_short acc [a, b] (by simp)] at h
                                exact Option.noConfusion h
                              | [a, b, c2] =>
                                rw [psa_u_short acc [a, b, c2] (by simp)] at h
                                exact Option.noConfusion h
                              | a :: b :: c2 :: d :: r2 =>
                                rcases hha : hexVal a with _ | va
                                · exact absurd h (by simp [psa_u_bad _ _ (Or.inl hha)])
                                · rcases hhb : hexVal b with _ | vb
                                  · exact absurd h
                                      (by simp [psa_u_bad _ _ (Or.inr (Or.inl hhb))])
                                  · rcases hhc : hexVal c2 with _ | vc
                                    · exact absurd h
                                        (by simp [psa_u_bad _ _ (Or.inr (Or.inr (Or.inl hhc)))])
                                    · rcases hhd : hexVal d with _ | vd
                                      · exact absurd h (by
                                          simp [psa_u_bad _ _
                                            (Or.inr (Or.inr (Or.inr hhd)))])
                                      · rw [psa_u acc r2 hha hhb hhc hhd] at h
                                        have ihr := ih r2 (by simp at hl; omega) _ s rest h
                                        rw [trimWs_cons_of_not_ws (by decide),
                                          trimWs_cons_of_not_ws (by decide),
                                          trimWs_cons_of_not_ws (hex_not_ws hha),
                                          trimWs_cons_of_not_ws (hex_not_ws hhb),
                                          trimWs_cons_of_not_ws (hex_not_ws hhc),
                                          trimWs_cons_of_not_ws (hex_not_ws hhd),
                                          psa_u acc (trimWs r2) hha hhb hhc hhd]
                                        exact ihr
                            · exact absurd h
                                (by simp [psa_esc_other acc r he1 he2 he3 he4 he5 he6 he7
                                  he8 he9])
        · by_cases h3 : c.toNat < 32
          · exact absurd h (by simp [psa_ctrl acc m h1 h2 h3])
          · rw [psa_raw acc m h1 h2 h3] at h
            have ihr := ih m (by simp at hl; omega) _ s rest h
            have hne : trimWs m ≠ [] := by
              intro h0
              rw [h0] at ihr
              exact absurd ihr (by simp [psa_nil])
            rw [trimWs_cons_of_ne_nil hne, psa_raw acc (trimWs m) h1 h2 h3]
            exact ihr

/-! ### Right-trim transport through the number grammar -/

theorem takeWhile_digit_trimWs (r : List Char) :
    (trimWs r).takeWhile Char.isDigit = r.takeWhile Char.isDigit ∧
    (trimWs r).dropWhile Char.isDigit = trimWs (r.dropWhile Char.isDigit) := by
  induction r with
  | nil => exact ⟨rfl, rfl⟩
  | cons c r ih =>
    by_cases hd : c.isDigit = true
    · rw [trimWs_cons_of_not_ws (digit_not_ws hd)]
      constructor
      · rw [List.takeWhile_cons, List.takeWhile_cons, if_pos hd, if_pos hd, ih.1]
      · rw [List.dropWhile_cons, List.dropWhile_cons, if_pos hd, if_pos hd]
        exact ih.2
    · by_cases hni : isPyWs c = true ∧ trimWs r = []
      · rw [trimWs_cons, if_pos hni]
        constructor
        · rw [List.takeWhile_cons, if_neg hd]
          rfl
        · rw [List.dropWhile_cons, if_neg hd]
          rw [show trimWs (c :: r) = [] by rw [trimWs_cons, if_pos hni]]
          rfl
      · rw [trimWs_cons, if_neg hni]
        constructor
        · rw [List.takeWhile_cons, List.takeWhile_cons, if_neg hd, if_neg hd]
        · rw [List.dropWhile_cons, List.dropWhile_cons, if_neg hd, if_neg hd]
          rw [trimWs_cons, if_neg hni]

theorem parseFrac_trimWs {l : List Char} {f k : Nat} {l3 : List Char}
    (h : parseFrac l = (f, k, l3)) :
    parseFrac (trimWs l) = (f, k, trimWs l3) := by
  match l with
  | [] =>
    simp only [parseFrac, Prod.mk.injEq] at h
    obtain ⟨rfl, rfl, rfl⟩ := h
    simp [parseFrac, trimWs_nil]
  | c :: r =>
    by_cases hc : c = '.'
    · subst hc
      rw [trimWs_cons_of_not_ws (by decide)]
      by_cases hds : (r.takeWhile Char.isDigit).isEmpty
      · have h' : f = 0 ∧ k = 0 ∧ l3 = '.' :: r := by
          simpa [parseFrac, hds] using h.symm
        obtain ⟨rfl, rfl, rfl⟩ := h'
        simp [parseFrac, (takeWhile_digit_trimWs r).1, hds,
          trimWs_cons_of_not_ws (show isPyWs '.' = false by decide)]
      · have h' : f = digitsToNat (r.takeWhile Char.isDigit) ∧
            k = (r.takeWhile Char.isDigit).length ∧ l3 = r.dropWhile Char.isDigit := by
          simpa [parseFrac, hds] using h.symm
        obtain ⟨rfl, rfl, rfl⟩ := h'
        simp [parseFrac, (takeWhile_digit_trimWs r).1, (takeWhile_digit_trimWs r).2, hds]
    · have h' : f = 0 ∧ k = 0 ∧ l3 = c :: r := by
        simpa [parseFrac, hc] using h.symm
      obtain ⟨rfl, rfl, rfl⟩ := h'
      by_cases hni : isPyWs c = true ∧ trimWs r = []
      · rw [trimWs_cons, if_pos hni]
        simp [parseFrac]
      · rw [trimWs_cons, if_neg hni]
        simp [parseFrac, hc]

theorem parseExp_cons_no_sign_no_digit {c : Char} (hc : (c = 'e' || c = 'E') = true)
    (m : List Char) (hm1 : ∀ x xs, m = x :: xs → x ≠ '+' ∧ x ≠ '-')
    (hm2 : (m.takeWhile Char.isDigit).isEmpty = true) :
    parseExp (c :: m) = (true, 0, c :: m) := by
  match m with
  | [] => simp [parseExp, hc]
  | x :: xs =>
    obtain ⟨hx1, hx2⟩ := hm1 x xs rfl
    simp [parseExp, hc, hx1, hx2, hm2]

theorem parseExp_trimWs {l : List Char} {pos : Bool} {n : Nat} {l4 : List Char}
    (h : parseExp l = (pos, n, l4)) :
    parseExp (trimWs l) = (pos, n, trimWs l4) := by
  match l with
  | [] =>
    simp only [parseExp, Prod.mk.injEq] at h
    obtain ⟨rfl, rfl, rfl⟩ := h
    simp [parseExp, trimWs_nil]
  | c :: r =>
    by_cases hc : (c = 'e' || c = 'E') = true
    · have hcws : isPyWs c = false := by
        rcases (by simpa using hc : c = 'e' ∨ c = 'E') with rfl | rfl <;> decide
      match r with
      | [] =>
        have h' : pos = true ∧ n = 0 ∧ l4 = c :: ([] : List Char) := by
          simpa [parseExp, hc] using h.symm
        obtain ⟨rfl, rfl, rfl⟩ := h'
        simp [parseExp, hc, trimWs_nil, trimWs_cons_of_not_ws hcws]
      | s :: r2 =>
        by_cases hs1 : s = '+'
        · subst hs1
          rw [trimWs_cons_of_not_ws hcws, trimWs_cons_of_not_ws (by decide)]
          by_cases hds : (r2.takeWhile Char.isDigit).isEmpty
          · have h' : pos = true ∧ n = 0 ∧ l4 = c :: '+' :: r2 := by
              simpa [parseExp, hc, hds] using h.symm
            obtain ⟨rfl, rfl, rfl⟩ := h'
            simp [parseExp, hc, (takeWhile_digit_trimWs r2).1, hds,
              trimWs_cons_of_not_ws hcws,
              trimWs_cons_of_not_ws (show isPyWs '+' = false by decide)]
          · have h' : pos = true ∧ n = digitsToNat (r2.takeWhile Char.isDigit) ∧
                l4 = r2.dropWhile Char.isDigit := by
              simpa [parseExp, hc, hds] using h.symm
            obtain ⟨rfl, rfl, rfl⟩ := h'
            simp [parseExp, hc, (takeWhile_digit_trimWs r2).1,
              (takeWhile_digit_trimWs r2).2, hds]
        · by_cases hs2 : s = '-'
          · subst hs2
            rw [trimWs_cons_of_not_ws hcws, trimWs_cons_of_not_ws (by decide)]
            by_cases hds : (r2.takeWhile Char.isDigit).isEmpty
            · have h' : pos = true ∧ n = 0 ∧ l4 = c :: '-' :: r2 := by
                simpa [parseExp, hc, hds] using h.symm
              obtain ⟨rfl, rfl, rfl⟩ := h'
              simp [parseExp, hc, (takeWhile_digit_trimWs r2).1, hds,
                trimWs_cons_of_not_ws hcws,
                trimWs_cons_of_not_ws (show isPyWs '-' = false by decide)]
            · have h' : pos = false ∧ n = digitsToNat (r2.takeWhile Char.isDigit) ∧
                  l4 = r2.dropWhile Char.isDigit := by
                simpa [parseExp, hc, hds] using h.symm
              obtain ⟨rfl, rfl, rfl⟩ := h'
              simp [parseExp, hc, (takeWhile_digit_trimWs r2).1,
                (takeWhile_digit_trimWs r2).2, hds]
          · -- the character after the exponent marker is neither sign
            by_cases hds : ((s :: r2).takeWhile Char.isDigit).isEmpty
            · have h' : pos = true ∧ n = 0 ∧ l4 = c :: s :: r2 := by
                simpa [parseExp, hc, hs1, hs2, hds] using h.symm
              obtain ⟨rfl, rfl, rfl⟩ := h'
              have hhead : ∀ x xs, trimWs (s :: r2) = x :: xs → x ≠ '+' ∧ x ≠ '-' := by
                intro x xs hxe
                have hpre : trimWs (s :: r2) <+: s :: r2 :=
                  List.rdropWhile_prefix isPyWs (s :: r2)
                rw [hxe] at hpre
                obtain ⟨hxs, -⟩ := List.cons_prefix_cons.mp hpre
                subst hxs
                exact ⟨hs1, hs2⟩
              have hempty : ((trimWs (s :: r2)).takeWhile Char.isDigit).isEmpty = true := by
                rw [(takeWhile_digit_trimWs (s :: r2)).1]
                exact hds
              rw [trimWs_cons_of_not_ws hcws,
                parseExp_cons_no_sign_no_digit hc (trimWs (s :: r2)) hhead hempty]
            · -- digits follow directly, so the head after the marker is a digit
              have hsd : s.isDigit = true := by
                by_contra hns
                simp [List.takeWhile_cons, hns] at hds
              have h' : pos = true ∧ n = digitsToNat ((s :: r2).takeWhile Char.isDigit) ∧
                  l4 = (s :: r2).dropWhile Char.isDigit := by
                simpa [parseExp, hc, hs1, hs2, hds] using h.symm
              obtain ⟨rfl, rfl, rfl⟩ := h'
              rw [trimWs_cons_of_not_ws hcws, trimWs_cons_of_not_ws (digit_not_ws hsd)]
              have htk := (takeWhile_digit_trimWs (s :: r2)).1
              have hdr := (takeWhile_digit_trimWs (s :: r2)).2
              rw [trimWs_cons_of_not_ws (digit_not_ws hsd)] at htk hdr
              simp [parseExp, hc, hs1, hs2, htk, hdr, hds]
    · have h' : pos = true ∧ n = 0 ∧ l4 = c :: r := by
        simpa [parseExp, hc] using h.symm
      obtain ⟨rfl, rfl, rfl⟩ := h'
      by_cases hni : isPyWs c = true ∧ trimWs r = []
      · rw [trimWs_cons, if_pos hni]
        simp [parseExp]
      · rw [trimWs_cons, if_neg hni]
        simp [parseExp, hc]

theorem numTail_trimWs (neg : Bool) (i : Nat) (l2 : List Char) :
    numTail neg i (trimWs l2) = ((numTail neg i l2).1, trimWs ((numTail neg i l2).2)) := by
  obtain ⟨f, k, l3, hf⟩ : ∃ f k l3, parseFrac l2 = (f, k, l3) := ⟨_, _, _, rfl⟩
  obtain ⟨ps, n, l4, he⟩ : ∃ ps n l4, parseExp l3 = (ps, n, l4) := ⟨_, _, _, rfl⟩
  simp only [numTail, parseFrac_trimWs hf, hf, parseExp_trimWs he, he]

theorem pn_neg_zero (r1 : List Char) :
    parseNumber ('-' :: '0' :: r1) = some (numTail true 0 r1) := rfl

theorem pn_zero (r : List Char) :
    parseNumber ('0' :: r) = some (numTail false 0 r) := rfl

theorem pn_neg_digit (c1 : Char) (r1 : List Char) (h0 : ¬c1 = '0')
    (hd : c1.isDigit = true) :
    parseNumber ('-' :: c1 :: r1)
      = some (numTail true (digitsToNat (c1 :: r1.takeWhile Char.isDigit))
          (r1.dropWhile Char.isDigit)) := by
  simp [parseNumber, numTail, h0, hd]

theorem pn_digit (c : Char) (r : List Char) (hneg : ¬c = '-') (h0 : ¬c = '0')
    (hd : c.isDigit = true) :
    parseNumber (c :: r)
      = some (numTail false (digitsToNat (c :: r.takeWhile Char.isDigit))
          (r.dropWhile Char.isDigit)) := by
  simp [parseNumber, numTail, hneg, h0, hd]

theorem parseNumber_head {c : Char} {r : List Char} {res : Dec × List Char}
    (h : parseNumber (c :: r) = some res) : isPyWs c = false := by
  by_cases hneg : c = '-'
  · subst hneg
    decide
  · by_cases h0 : c = '0'
    · subst h0
      decide
    · by_cases hd : c.isDigit = true
      · exact digit_not_ws hd
      · simp [parseNumber, hneg, h0, hd] at h

theorem parseNumber_trimWs {l : List Char} {d : Dec} {rest : List Char}
    (h : parseNumber l = some (d, rest)) :
    parseNumber (trimWs l) = some (d, trimWs rest) := by
  match l with
  | [] => simp [parseNumber] at h
  | c :: r =>
    by_cases hneg : c = '-'
    · subst hneg
      match r with
      | [] => simp [parseNumber] at h
      | c1 :: r1 =>
        by_cases h0 : c1 = '0'
        · subst h0
          rw [pn_neg_zero] at h
          have hp : numTail true 0 r1 = (d, rest) := Option.some.inj h
          have hd' : d = (numTail true 0 r1).1 := by rw [hp]
          have hr' : rest = (numTail true 0 r1).2 := by rw [hp]
          subst hd'
          subst hr'
          rw [trimWs_cons_of_not_ws (by decide), trimWs_cons_of_not_ws (by decide),
            pn_neg_zero, numTail_trimWs]
        · by_cases hd1 : c1.isDigit = true
          · rw [pn_neg_digit c1 r1 h0 hd1] at h
            have hp := Option.some.inj h
            have hd' : d = (numTail true (digitsToNat (c1 :: r1.takeWhile Char.isDigit))
                (r1.dropWhile Char.isDigit)).1 := by rw [hp]
            have hr' : rest = (numTail true (digitsToNat (c1 :: r1.takeWhile Char.isDigit))
                (r1.dropWhile Char.isDigit)).2 := by rw [hp]
            subst hd'
            subst hr'
            rw [trimWs_cons_of_not_ws (by decide),
              trimWs_cons_of_not_ws (digit_not_ws hd1),
              pn_neg_digit c1 (trimWs r1) h0 hd1,
              (takeWhile_digit_trimWs r1).1, (takeWhile_digit_trimWs r1).2,
              numTail_trimWs]
          · simp [parseNumber, h0, hd1] at h
    · by_cases h0 : c = '0'
      · subst h0
        rw [pn_zero] at h
        have hp : numTail false 0 r = (d, rest) := Option.some.inj h
        have hd' : d = (numTail false 0 r).1 := by rw [hp]
        have hr' : rest = (numTail false 0 r).2 := by rw [hp]
        subst hd'
        subst hr'
        rw [trimWs_cons_of_not_ws (by decide), pn_zero, numTail_trimWs]
      · by_cases hd1 : c.isDigit = true
        · rw [pn_digit c r hneg h0 hd1] at h
          have hp := Option.some.inj h
          have hd' : d = (numTail false (digitsToNat (c :: r.takeWhile Char.isDigit))
              (r.dropWhile Char.isDigit)).1 := by rw [hp]
          have hr' : rest = (numTail false (digitsToNat (c :: r.takeWhile Char.isDigit))
              (r.dropWhile Char.isDigit)).2 := by rw [hp]
          subst hd'
          subst hr'
          rw [trimWs_cons_of_not_ws (digit_not_ws hd1),
            pn_digit c (trimWs r) hneg h0 hd1,
            (takeWhile_digit_trimWs r).1, (takeWhile_digit_trimWs r).2,
            numTail_trimWs]
        · simp [parseNumber, hneg, h0, hd1] at h

/-! ### One-step equations for `parseStep` -/

theorem ps_val_lbrace (f : Nat) (r : List Char) :
    parseStep (f + 1) .val (lbrace :: r) = parseStep f (.mems []) (skipWs r) := by
  simp +decide [parseStep]

theorem ps_val_lbrack (f : Nat) (r : List Char) :
    parseStep (f + 1) .val (lbrack :: r) = parseStep f (.elems []) (skipWs r) := by
  simp +decide [parseStep]

theorem ps_val_str (f : Nat) {r : List Char} {s : String} {r2 : List Char}
    (hps : parseStringAux [] r = some (s, r2)) :
    parseStep (f + 1) .val (dquote :: r) = some (.str s, r2) := by
  simp +decide [parseStep, hps]

theorem ps_val_null (f : Nat) (t : List Char) :
    parseStep (f + 1) .val (litNull ++ t) = some (.null, t) := by
  simp +decide [parseStep, litNull, List.isPrefixOf]

theorem ps_val_true (f : Nat) (t : List Char) :
    parseStep (f + 1) .val (litTrue ++ t) = some (.bool true, t) := by
  simp +decide [parseStep, litNull, litTrue, List.isPrefixOf]

theorem ps_val_false (f : Nat) (t : List Char) :
    parseStep (f + 1) .val (litFalse ++ t) = some (.bool false, t) := by
  simp +decide [parseStep, litNull, litTrue, litFalse, List.isPrefixOf]

theorem ps_val_num (f : Nat) {c : Char} {r : List Char} {q : Dec} {r2 : List Char}
    (h1 : ¬c = lbrace) (h2 : ¬c = lbrack) (h3 : ¬c = dquote)
    (h4 : litNull.isPrefixOf (c :: r) = false)
    (h5 : litTrue.isPrefixOf (c :: r) = false)
    (h6 : litFalse.isPrefixOf (c :: r) = false)
    (hpn : parseNumber (c :: r) = some (q, r2)) :
    parseStep (f + 1) .val (c :: r) = some (.num q, r2) := by
  simp [parseStep, h1, h2, h3, h4, h5, h6, hpn]

theorem ps_elems_close (f : Nat) (r : List Char) :
    parseStep (f + 1) (.elems []) (rbrack :: r) = some (.arr [], r) := by
  simp +decide [parseStep]

theorem ps_elems_comma (f : Nat) (acc : List Json) {c : Char} {r : List Char}
    {v2 : Json} {r2 r4 : List Char}
    (hcond : ¬(c = rbrack ∧ acc = []))
    (hv : parseStep f .val (c :: r) = some (v2, r2))
    (hsw : skipWs r2 = ',' :: r4) :
    parseStep (f + 1) (.elems acc) (c :: r)
      = parseStep f (.elems (v2 :: acc)) (skipWs r4) := by
  simp +decide [parseStep, hv, hsw]
  intro hc hacc
  exact absurd ⟨hc, hacc⟩ hcond

theorem ps_elems_rb (f : Nat) (acc : List Json) {c : Char} {r : List Char}
    {v2 : Json} {r2 r4 : List Char}
    (hcond : ¬(c = rbrack ∧ acc = []))
    (hv : parseStep f .val (c :: r) = some (v2, r2))
    (hsw : skipWs r2 = rbrack :: r4) :
    parseStep (f + 1) (.elems acc) (c :: r)
      = some (.arr (v2 :: acc).reverse, r4) := by
  simp +decide [parseStep, hv, hsw]
  intro hc hacc
  exact absurd ⟨hc, hacc⟩ hcond

theorem ps_mems_close (f : Nat) (r : List Char) :
    parseStep (f + 1) (.mems []) (rbrace :: r) = some (.obj [], r) := by
  simp +decide [parseStep]

theorem ps_mems_comma (f : Nat) (acc : List (String × Json)) {r : List Char}
    {k : String} {r2 r3 : List Char} {v2 : Json} {r4 r5 : List Char}
    (hk : parseStringAux [] r = some (k, r2)) (hsw : skipWs r2 = ':' :: r3)
    (hv : parseStep f .val (skipWs r3) = some (v2, r4))
    (hsw2 : skipWs r4 = ',' :: r5) :
    parseStep (f + 1) (.mems acc) (dquote :: r)
      = parseStep f (.mems ((k, v2) :: acc)) (skipWs r5) := by
  simp +decide [parseStep, hk, hsw, hv, hsw2]

theorem ps_mems_rb (f : Nat) (acc : List (String × Json)) {r : List Char}
    {k : String} {r2 r3 : List Char} {v2 : Json} {r4 r5 : List Char}
    (hk : parseStringAux [] r = some (k, r2)) (hsw : skipWs r2 = ':' :: r3)
    (hv : parseStep f .val (skipWs r3) = some (v2, r4))
    (hsw2 : skipWs r4 = rbrace :: r5) :
    parseStep (f + 1) (.mems acc) (dquote :: r)
      = some (.obj ((k, v2) :: acc).reverse, r5) := by
  simp +decide [parseStep, hk, hsw, hv, hsw2]

/-- The first character of a successfully parsed JSON value is never Python
whitespace. -/
theorem parseStep_val_head {fuel : Nat} {c : Char} {r : List Char}
    {res : Json × List Char}
    (h : parseStep fuel .val (c :: r) = some res) : isPyWs c = false := by
  match fuel with
  | 0 => simp [parseStep] at h
  | f + 1 =>
    by_cases h1 : c = lbrace
    · subst h1
      decide
    · by_cases h2 : c = lbrack
      · subst h2
        decide
      · by_cases h3 : c = dquote
        · subst h3
          decide
        · by_cases h4 : litNull.isPrefixOf (c :: r) = true
          · obtain ⟨t, ht⟩ := List.isPrefixOf_iff_prefix.mp h4
            have hc : c = 'n' := by
              have := congrArg List.head? ht
              simpa [litNull] using this.symm
            subst hc
            decide
          · by_cases h5 : litTrue.isPrefixOf (c :: r) = true
            · obtain ⟨t, ht⟩ := List.isPrefixOf_iff_prefix.mp h5
              have hc : c = 't' := by
                have := congrArg List.head? ht
                simpa [litTrue] using this.symm
              subst hc
              decide
            · by_cases h6 : litFalse.isPrefixOf (c :: r) = true
              · obtain ⟨t, ht⟩ := List.isPrefixOf_iff_prefix.mp h6
                have hc : c = 'f' := by
                  have := congrArg List.head? ht
                  simpa [litFalse] using this.symm
                subst hc
                decide
              · have h4' := Bool.eq_false_iff.mpr h4
                have h5' := Bool.eq_false_iff.mpr h5
                have h6' := Bool.eq_false_iff.mpr h6
                rcases hpn : parseNumber (c :: r) with _ | ⟨q, r2⟩
                · simp [parseStep, h1, h2, h3, h4', h5', h6', hpn] at h
                · exact parseNumber_head hpn

/-- A failed prefix test for a literal keyword stays failed after right-trimming
the tail: the trimmed list is a prefix of the original. -/
theorem lit_not_prefix_trimWs {x : List Char} {c : Char} {r : List Char}
    (h : x.isPrefixOf (c :: r) = false) : x.isPrefixOf (c :: trimWs r) = false := by
  by_contra hx
  have hx' : x.isPrefixOf (c :: trimWs r) = true := by
    cases hb : x.isPrefixOf (c :: trimWs r)
    · exact absurd hb hx
    · rfl
  have hp1 : x <+: c :: trimWs r := List.isPrefixOf_iff_prefix.mp hx'
  have hp2 : (c :: trimWs r) <+: (c :: r) :=
    List.cons_prefix_cons.mpr ⟨rfl, List.rdropWhile_prefix _ _⟩
  have := List.isPrefixOf_iff_prefix.mpr (hp1.trans hp2)
  rw [h] at this
  exact Bool.noConfusion this

theorem trimWs_litNull (t : List Char) :
    trimWs (litNull ++ t) = litNull ++ trimWs t := by
  show trimWs ('n' :: 'u' :: 'l' :: 'l' :: t) = _
  rw [trimWs_cons_of_not_ws (by decide), trimWs_cons_of_not_ws (by decide),
    trimWs_cons_of_not_ws (by decide), trimWs_cons_of_not_ws (by decide)]
  rfl

theorem trimWs_litTrue (t : List Char) :
    trimWs (litTrue ++ t) = litTrue ++ trimWs t := by
  show trimWs ('t' :: 'r' :: 'u' :: 'e' :: t) = _
  rw [trimWs_cons_of_not_ws (by decide), trimWs_cons_of_not_ws (by decide),
    trimWs_cons_of_not_ws (by decide), trimWs_cons_of_not_ws (by decide)]
  rfl

theorem trimWs_litFalse (t : List Char) :
    trimWs (litFalse ++ t) = litFalse ++ trimWs t := by
  show trimWs ('f' :: 'a' :: 'l' :: 's' :: 'e' :: t) = _
  rw [trimWs_cons_of_not_ws (by decide), trimWs_cons_of_not_ws (by decide),
    trimWs_cons_of_not_ws (by decide), trimWs_cons_of_not_ws (by decide),
    trimWs_cons_of_not_ws (by decide)]
  rfl

/-- Right-trimming the input of the JSON scanner commutes with parsing: a right-
trimmed input parses, at the same fuel, to the same value with a right-trimmed
remainder.  (Trailing whitespace can never be examined before the value is
complete, because every delimiter and every literal character is non-whitespace.) -/
theorem parseStep_trimWs :
    ∀ (fuel : Nat) (mode : PMode) (l : List Char) (v : Json) (rest : List Char),
      parseStep fuel mode l = some (v, rest) →
      parseStep fuel mode (trimWs l) = some (v, trimWs rest) := by
  intro fuel
  induction fuel with
  | zero =>
    intro mode l v rest h
    simp +decide [parseStep] at h
  | succ f ih =>
    intro mode l v rest h
    match mode with
    | .val =>
      match l with
      | [] => simp +decide [parseStep] at h
      | c :: r =>
        by_cases h1 : c = lbrace
        · subst h1
          rw [ps_val_lbrace] at h
          rw [trimWs_cons_of_not_ws (by decide), ps_val_lbrace, skipWs_trimWs]
          exact ih _ _ _ _ h
        · by_cases h2 : c = lbrack
          · subst h2
            rw [ps_val_lbrack] at h
            rw [trimWs_cons_of_not_ws (by decide), ps_val_lbrack, skipWs_trimWs]
            exact ih _ _ _ _ h
          · by_cases h3 : c = dquote
            · subst h3
              rcases hps : parseStringAux [] r with _ | ⟨s, r2⟩
              · simp +decide [parseStep, hps] at h
              · rw [ps_val_str f hps] at h
                have hp := Option.some.inj h
                have hv' : v = Json.str s := (congrArg Prod.fst hp).symm
                have hr' : rest = r2 := (congrArg Prod.snd hp).symm
                subst hv'
                subst hr'
                have hps' := parseStringAux_trimWs r.length r le_rfl [] s _ hps
                rw [trimWs_cons_of_not_ws (by decide), ps_val_str f hps']
            · by_cases h4 : litNull.isPrefixOf (c :: r) = true
              · obtain ⟨t, ht⟩ := List.isPrefixOf_iff_prefix.mp h4
                rw [← ht] at h
                rw [ps_val_null] at h
                have hp := Option.some.inj h
                have hv' : v = Json.null := (congrArg Prod.fst hp).symm
                have hr' : rest = t := (congrArg Prod.snd hp).symm
                subst hv'
                subst hr'
                rw [← ht, trimWs_litNull, ps_val_null]
              · by_cases h5 : litTrue.isPrefixOf (c :: r) = true
                · obtain ⟨t, ht⟩ := List.isPrefixOf_iff_prefix.mp h5
                  rw [← ht] at h
                  rw [ps_val_true] at h
                  have hp := Option.some.inj h
                  have hv' : v = Json.bool true := (congrArg Prod.fst hp).symm
                  have hr' : rest = t := (congrArg Prod.snd hp).symm
                  subst hv'
                  subst hr'
                  rw [← ht, trimWs_litTrue, ps_val_true]
                · by_cases h6 : litFalse.isPrefixOf (c :: r) = true
                  · obtain ⟨t, ht⟩ := List.isPrefixOf_iff_prefix.mp h6
                    rw [← ht] at h
                    rw [ps_val_false] at h
                    have hp := Option.some.inj h
                    have hv' : v = Json.bool false := (congrArg Prod.fst hp).symm
                    have hr' : rest = t := (congrArg Prod.snd hp).symm
                    subst hv'
                    subst hr'
                    rw [← ht, trimWs_litFalse, ps_val_false]
                  · have h4' := Bool.eq_false_iff.mpr h4
                    have h5' := Bool.eq_false_iff.mpr h5
                    have h6' := Bool.eq_false_iff.mpr h6
                    rcases hpn : parseNumber (c :: r) with _ | ⟨q, r2⟩
                    · simp +decide [parseStep, h1, h2, h3, h4', h5', h6', hpn] at h
                    · rw [ps_val_num f h1 h2 h3 h4' h5' h6' hpn] at h
                      have hp := Option.some.inj h
                      have hv' : v = Json.num q := (congrArg Prod.fst hp).symm
                      have hr' : rest = r2 := (congrArg Prod.snd hp).symm
                      subst hv'
                      subst hr'
                      have hhead : isPyWs c = false := parseNumber_head hpn
                      have hpn' := parseNumber_trimWs hpn
                      rw [trimWs_cons_of_not_ws hhead] at hpn'
                      rw [trimWs_cons_of_not_ws hhead,
                        ps_val_num f h1 h2 h3 (lit_not_prefix_trimWs h4')
                          (lit_not_prefix_trimWs h5') (lit_not_prefix_trimWs h6') hpn']
    | .elems acc =>
      match l with
      | [] => simp +decide [parseStep] at h
      | c :: r =>
        by_cases hcl : c = rbrack ∧ acc = []
        · obtain ⟨rfl, rfl⟩ := hcl
          rw [ps_elems_close] at h
          have hp := Option.some.inj h
          have hv' : v = Json.arr [] := (congrArg Prod.fst hp).symm
          have hr' : rest = r := (congrArg Prod.snd hp).symm
          subst hv'
          subst hr'
          rw [trimWs_cons_of_not_ws (by decide), ps_elems_close]
        · rcases hv : parseStep f .val (c :: r) with _ | ⟨v2, r2⟩
          · simp +decide [parseStep, hcl, hv] at h
          · have hhead : isPyWs c = false := parseStep_val_head hv
            have ihv := ih .val (c :: r) v2 r2 hv
            rw [trimWs_cons_of_not_ws hhead] at ihv
            rcases hsw : skipWs r2 with _ | ⟨c2, r4⟩
            · simp +decide [parseStep, hcl, hv, hsw] at h
            · by_cases hc2 : c2 = ','
              · subst hc2
                rw [ps_elems_comma f acc hcl hv hsw] at h
                have hsw' : skipWs (trimWs r2) = ',' :: trimWs r4 := by
                  rw [skipWs_trimWs, hsw, trimWs_cons_of_not_ws (by decide)]
                rw [trimWs_cons_of_not_ws hhead,
                  ps_elems_comma f acc hcl ihv hsw', skipWs_trimWs]
                exact ih _ _ _ _ h
              · by_cases hc2b : c2 = rbrack
                · subst hc2b
                  rw [ps_elems_rb f acc hcl hv hsw] at h
                  have hp := Option.some.inj h
                  have hv' : v = Json.arr (v2 :: acc).reverse :=
                    (congrArg Prod.fst hp).symm
                  have hr' : rest = r4 := (congrArg Prod.snd hp).symm
                  subst hv'
                  subst hr'
                  have hsw' : skipWs (trimWs r2) = rbrack :: trimWs rest := by
                    rw [skipWs_trimWs, hsw, trimWs_cons_of_not_ws (by decide)]
                  rw [trimWs_cons_of_not_ws hhead, ps_elems_rb f acc hcl ihv hsw']
                · simp +decide [parseStep, hcl, hv, hsw, hc2, hc2b] at h
    | .mems acc =>
      match l with
      | [] => simp +decide [parseStep] at h
      | c :: r =>
        by_cases hcl : c = rbrace ∧ acc = []
        · obtain ⟨rfl, rfl⟩ := hcl
          rw [ps_mems_close] at h
          have hp := Option.some.inj h
          have hv' : v = Json.obj [] := (congrArg Prod.fst hp).symm
          have hr' : rest = r := (congrArg Prod.snd hp).symm
          subst hv'
          subst hr'
          rw [trimWs_cons_of_not_ws (by decide), ps_mems_close]
        · by_cases hdq : c = dquote
          · subst hdq
            rcases hk : parseStringAux [] r with _ | ⟨k, r2⟩
            · simp +decide [parseStep, hcl, hk] at h
            · have hk' := parseStringAux_trimWs r.length r le_rfl [] k r2 hk
              rcases hsw : skipWs r2 with _ | ⟨c2, r3⟩
              · simp +decide [parseStep, hcl, hk, hsw] at h
              · by_cases hc2 : c2 = ':'
                · subst hc2
                  rcases hv : parseStep f .val (skipWs r3) with _ | ⟨v2, r4⟩
                  · simp +decide [parseStep, hcl, hk, hsw, hv] at h
                  · have ihv := ih .val (skipWs r3) v2 r4 hv
                    rw [← skipWs_trimWs] at ihv
                    have hsw' : skipWs (trimWs r2) = ':' :: trimWs r3 := by
                      rw [skipWs_trimWs, hsw, trimWs_cons_of_not_ws (by decide)]
                    rcases hsw2 : skipWs r4 with _ | ⟨c3, r5⟩
                    · simp +decide [parseStep, hcl, hk, hsw, hv, hsw2] at h
                    · by_cases hc3 : c3 = ','
                      · subst hc3
                        rw [ps_mems_comma f acc hk hsw hv hsw2] at h
                        have hsw2' : skipWs (trimWs r4) = ',' :: trimWs r5 := by
                          rw [skipWs_trimWs, hsw2, trimWs_cons_of_not_ws (by decide)]
                        rw [trimWs_cons_of_not_ws (by decide),
                          ps_mems_comma f acc hk' hsw' ihv hsw2', skipWs_trimWs]
                        exact ih _ _ _ _ h
                      · by_cases hc3b : c3 = rbrace
                        · subst hc3b
                          rw [ps_mems_rb f acc hk hsw hv hsw2] at h
                          have hp := Option.some.inj h
                          have hv' : v = Json.obj ((k, v2) :: acc).reverse :=
                            (congrArg Prod.fst hp).symm
                          have hr' : rest = r5 := (congrArg Prod.snd hp).symm
                          subst hv'
                          subst hr'
                          have hsw2' : skipWs (trimWs r4) = rbrace :: trimWs rest := by
                            rw [skipWs_trimWs, hsw2, trimWs_cons_of_not_ws (by decide)]
                          rw [trimWs_cons_of_not_ws (by decide),
                            ps_mems_rb f acc hk' hsw' ihv hsw2']
                        · simp +decide [parseStep, hcl, hk, hsw, hv, hsw2, hc3, hc3b] at h
                · simp +decide [parseStep, hcl, hk, hsw, hc2] at h
          · simp +decide [parseStep, hcl, hdq] at h

/-! ### Length bounds: every parser component's remainder is no longer than its input -/

theorem skipWs_length_le (l : List Char) : (skipWs l).length ≤ l.length :=
  (List.dropWhile_suffix _).length_le

theorem parseStringAux_rest_le :
    ∀ (n : Nat) (l : List Char), l.length ≤ n →
      ∀ (acc : List Char) (s : String) (rest : List Char),
        parseStringAux acc l = some (s, rest) → rest.length ≤ l.length := by
  intro n
  induction n with
  | zero =>
    intro l hl acc s rest h
    have : l = [] := List.eq_nil_of_length_eq_zero (by omega)
    subst this
    exact absurd h (by simp [psa_nil])
  | succ n ih =>
    intro l hl acc s rest h
    match l with
    | [] => exact absurd h (by simp [psa_nil])
    | c :: m =>
      by_cases h1 : c = dquote
      · subst h1
        rw [psa_close] at h
        simp only [Option.some.injEq, Prod.mk.injEq] at h
        obtain ⟨rfl, rfl⟩ := h
        simp
      · by_cases h2 : c = bslash
        · subst h2
          match m with
          | [] => exact absurd h (by simp [psa_bs_nil])
          | e :: r =>
            by_cases he1 : e = dquote
            · subst he1
              rw [psa_esc_dq] at h
              have ihr := ih r (by simp at hl; omega) _ s rest h
              simp
              omega
            · by_cases he2 : e = bslash
              · subst he2
                rw [psa_esc_bs] at h
                have ihr := ih r (by simp at hl; omega) _ s rest h
                simp
                omega
              · by_cases he3 : e = '/'
                · subst he3
                  rw [psa_esc_slash] at h
                  have ihr := ih r (by simp at hl; omega) _ s rest h
                  simp
                  omega
                · by_cases he4 : e = 'b'
                  · subst he4
                    rw [psa_esc_b] at h
                    have ihr := ih r (by simp at hl; omega) _ s rest h
                    simp
                    omega
                  · by_cases he5 : e = 'f'
                    · subst he5
                      rw [psa_esc_f] at h
                      have ihr := ih r (by simp at hl; omega) _ s rest h
                      simp
                      omega
                    · by_cases he6 : e = 'n'
                      · subst he6
                        rw [psa_esc_n] at h
                        have ihr := ih r (by simp at hl; omega) _ s rest h
                        simp
                        omega
                      · by_cases he7 : e = 'r'
                        · subst he7
                          rw [psa_esc_r] at h
                          have ihr := ih r (by simp at hl; omega) _ s rest h
                          simp
                          omega
                        · by_cases he8 : e = 't'
                          · subst he8
                            rw [psa_esc_t] at h
                            have ihr := ih r (by simp at hl; omega) _ s rest h
                            simp
                            omega
                          · by_cases he9 : e = 'u'
                            · subst he9
                              match r with
                              | [] =>
                                rw [psa_u_short acc [] (by simp)] at h
                                exact Option.noConfusion h
                              | [a] =>
                                rw [psa_u_short acc [a] (by simp)] at h
                                exact Option.noConfusion h
                              | [a, b] =>
                                rw [psa_u_short acc [a, b] (by simp)] at h
                                exact Option.noConfusion h
                              | [a, b, c2] =>
                                rw [psa_u_short acc [a, b, c2] (by simp)] at h
                                exact Option.noConfusion h
                              | a :: b :: c2 :: d :: r2 =>
                                rcases hha : hexVal a with _ | va
                                · exact absurd h (by simp [psa_u_bad _ _ (Or.inl hha)])
                                · rcases hhb : hexVal b with _ | vb
                                  · exact absurd h
                                      (by simp [psa_u_bad _ _ (Or.inr (Or.inl hhb))])
                                  · rcases hhc : hexVal c2 with _ | vc
                                    · exact absurd h
                                        (by simp [psa_u_bad _ _ (Or.inr (Or.inr (Or.inl hhc)))])
                                    · rcases hhd : hexVal d with _ | vd
                                      · exact absurd h
                                          (by simp [psa_u_bad _ _ (Or.inr (Or.inr (Or.inr hhd)))])
                                      · rw [psa_u acc r2 hha hhb hhc hhd] at h
                                        have ihr := ih r2 (by simp at hl; omega) _ s rest h
                                        simp
                                        omega
                            · rw [psa_esc_other acc r he1 he2 he3 he4 he5 he6 he7
                                he8 he9] at h
                              exact Option.noConfusion h
        · by_cases h3 : c.toNat < 32
          · rw [psa_ctrl acc m h1 h2 h3] at h
            exact Option.noConfusion h
          · rw [psa_raw acc m h1 h2 h3] at h
            have ihr := ih m (by simp at hl; omega) _ s rest h
            simp
            omega

theorem parseFrac_rest_le {l : List Char} {f k : Nat} {l3 : List Char}
    (h : parseFrac l = (f, k, l3)) : l3.length ≤ l.length := by
  match l with
  | [] =>
    simp only [parseFrac, Prod.mk.injEq] at h
    obtain ⟨-, -, rfl⟩ := h
    simp
  | c :: r =>
    by_cases hc : c = '.'
    · subst hc
      by_cases hds : (r.takeWhile Char.isDigit).isEmpty
      · have h' : l3 = '.' :: r := by
          have := (by simpa [parseFrac, hds] using h.symm :
            f = 0 ∧ k = 0 ∧ l3 = '.' :: r)
          exact this.2.2
        rw [h']
      · have h' : l3 = r.dropWhile Char.isDigit := by
          have := (by simpa [parseFrac, hds] using h.symm :
            f = digitsToNat (r.takeWhile Char.isDigit) ∧
              k = (r.takeWhile Char.isDigit).length ∧ l3 = r.dropWhile Char.isDigit)
          exact this.2.2
        rw [h']
        have hdl : (r.dropWhile Char.isDigit).length ≤ r.length :=
          (List.dropWhile_suffix _).length_le
        simp
        omega
    · have h' : l3 = c :: r := by
        have := (by simpa [parseFrac, hc] using h.symm : f = 0 ∧ k = 0 ∧ l3 = c :: r)
        exact this.2.2
      rw [h']

theorem parseExp_rest_le {l : List Char} {pos : Bool} {n : Nat} {l4 : List Char}
    (h : parseExp l = (pos, n, l4)) : l4.length ≤ l.length := by
  match l with
  | [] =>
    simp only [parseExp, Prod.mk.injEq] at h
    obtain ⟨-, -, rfl⟩ := h
    simp
  | c :: r =>
    by_cases hc : (c = 'e' || c = 'E') = true
    · match r with
      | [] =>
        have h' : l4 = [c] := by
          have := (by simpa [parseExp, hc] using h.symm :
            pos = true ∧ n = 0 ∧ l4 = c :: ([] : List Char))
          exact this.2.2
        rw [h']
      | s :: r2 =>
        by_cases hs1 : s = '+'
        · subst hs1
          by_cases hds : (r2.takeWhile Char.isDigit).isEmpty
          · have h' : l4 = c :: '+' :: r2 := by
              have := (by simpa [parseExp, hc, hds] using h.symm :
                pos = true ∧ n = 0 ∧ l4 = c :: '+' :: r2)
              exact this.2.2
            rw [h']
          · have h' : l4 = r2.dropWhile Char.isDigit := by
              have := (by simpa [parseExp, hc, hds] using h.symm :
                pos = true ∧ n = digitsToNat (r2.takeWhile Char.isDigit) ∧
                  l4 = r2.dropWhile Char.isDigit)
              exact this.2.2
            rw [h']
            have hdl : (r2.dropWhile Char.isDigit).length ≤ r2.length :=
              (List.dropWhile_suffix _).length_le
            simp
            omega
        · by_cases hs2 : s = '-'
          · subst hs2
            by_cases hds : (r2.takeWhile Char.isDigit).isEmpty
            · have h' : l4 = c :: '-' :: r2 := by
                have := (by simpa [parseExp, hc, hds] using h.symm :
                  pos = true ∧ n = 0 ∧ l4 = c :: '-' :: r2)
                exact this.2.2
              rw [h']
            · have h' : l4 = r2.dropWhile Char.isDigit := by
                have := (by simpa [parseExp, hc, hds] using h.symm :
                  pos = false ∧ n = digitsToNat (r2.takeWhile Char.isDigit) ∧
                    l4 = r2.dropWhile Char.isDigit)
                exact this.2.2
              rw [h']
              have hdl : (r2.dropWhile Char.isDigit).length ≤ r2.length :=
                (List.dropWhile_suffix _).length_le
              simp
              omega
          · by_cases hds : ((s :: r2).takeWhile Char.isDigit).isEmpty
            · have h' : l4 = c :: s :: r2 := by
                have := (by simpa [parseExp, hc, hs1, hs2, hds] using h.symm :
                  pos = true ∧ n = 0 ∧ l4 = c :: s :: r2)
                exact this.2.2
              rw [h']
            · have h' : l4 = (s :: r2).dropWhile Char.isDigit := by
                have := (by simpa [parseExp, hc, hs1, hs2, hds] using h.symm :
                  pos = true ∧ n = digitsToNat ((s :: r2).takeWhile Char.isDigit) ∧
                    l4 = (s :: r2).dropWhile Char.isDigit)
                exact this.2.2
              rw [h']
              have hdl : ((s :: r2).dropWhile Char.isDigit).length ≤ (s :: r2).length :=
                (List.dropWhile_suffix _).length_le
              simp at hdl ⊢
              omega
    · have h' : l4 = c :: r := by
        have := (by simpa [parseExp, hc] using h.symm : pos = true ∧ n = 0 ∧ l4 = c :: r)
        exact this.2.2
      rw [h']

theorem numTail_rest_le (neg : Bool) (i : Nat) (l2 : List Char) :
    (numTail neg i l2).2.length ≤ l2.length := by
  obtain ⟨f, k, l3, hf⟩ : ∃ f k l3, parseFrac l2 = (f, k, l3) := ⟨_, _, _, rfl⟩
  obtain ⟨ps, n, l4, he⟩ : ∃ ps n l4, parseExp l3 = (ps, n, l4) := ⟨_, _, _, rfl⟩
  have h2 : (numTail neg i l2).2 = l4 := by
    simp [numTail, hf, he]
  rw [h2]
  exact le_trans (parseExp_rest_le he) (parseFrac_rest_le hf)

theorem parseNumber_rest_le {l : List Char} {d : Dec} {rest : List Char}
    (h : parseNumber l = some (d, rest)) : rest.length ≤ l.length := by
  match l with
  | [] => simp [parseNumber] at h
  | c :: r =>
    by_cases hneg : c = '-'
    · subst hneg
      match r with
      | [] => simp [parseNumber] at h
      | c1 :: r1 =>
        by_cases h0 : c1 = '0'
        · subst h0
          rw [pn_neg_zero] at h
          have hr' : rest = (numTail true 0 r1).2 := by
            rw [Option.some.inj h]
          rw [hr']
          have := numTail_rest_le true 0 r1
          simp
          omega
        · by_cases hd1 : c1.isDigit = true
          · rw [pn_neg_digit c1 r1 h0 hd1] at h
            have hr' : rest = (numTail true (digitsToNat (c1 :: r1.takeWhile Char.isDigit))
                (r1.dropWhile Char.isDigit)).2 := by
              rw [Option.some.inj h]
            rw [hr']
            have h2 := numTail_rest_le true
              (digitsToNat (c1 :: r1.takeWhile Char.isDigit)) (r1.dropWhile Char.isDigit)
            have h3 : (r1.dropWhile Char.isDigit).length ≤ r1.length :=
              (List.dropWhile_suffix _).length_le
            simp at h3 ⊢
            omega
          · simp [parseNumber, h0, hd1] at h
    · by_cases h0 : c = '0'
      · subst h0
        rw [pn_zero] at h
        have hr' : rest = (numTail false 0 r).2 := by
          rw [Option.some.inj h]
        rw [hr']
        have := numTail_rest_le false 0 r
        simp
        omega
      · by_cases hd1 : c.isDigit = true
        · rw [pn_digit c r hneg h0 hd1] at h
          have hr' : rest = (numTail false (digitsToNat (c :: r.takeWhile Char.isDigit))
              (r.dropWhile Char.isDigit)).2 := by
            rw [Option.some.inj h]
          rw [hr']
          have h2 := numTail_rest_le false
            (digitsToNat (c :: r.takeWhile Char.isDigit)) (r.dropWhile Char.isDigit)
          have h3 : (r.dropWhile Char.isDigit).length ≤ r.length :=
            (List.dropWhile_suffix _).length_le
          simp at h3 ⊢
          omega
        · simp [parseNumber, hneg, h0, hd1] at h

/-! ### Fuel stability: a successful parse is reproduced at any sufficient fuel -/

/-- Fuel weight of a parser mode: the fuel needed beyond twice the input length. -/
def wMode : PMode → Nat
  | .val => 2
  | .elems _ => 3
  | .mems _ => 3

/-- A successful `parseStep` consumes at least as many characters as it leaves,
and is insensitive to the fuel once the fuel dominates twice the input length
plus the mode weight. -/
theorem parseStep_strong :
    ∀ (fuel : Nat) (mode : PMode) (l : List Char) (v : Json) (rest : List Char),
      parseStep fuel mode l = some (v, rest) →
      rest.length ≤ l.length ∧
        ∀ fuel', 2 * l.length + wMode mode ≤ fuel' →
          parseStep fuel' mode l = some (v, rest) := by
  intro fuel
  induction fuel with
  | zero =>
    intro mode l v rest h
    simp [parseStep] at h
  | succ f ih =>
    intro mode l v rest h
    match mode with
    | .val =>
      match l with
      | [] => simp +decide [parseStep] at h
      | c :: r =>
        by_cases h1 : c = lbrace
        · subst h1
          rw [ps_val_lbrace] at h
          obtain ⟨hle, hstab⟩ := ih _ _ _ _ h
          have hlsw : (skipWs r).length ≤ r.length := skipWs_length_le r
          refine ⟨by simp only [List.length_cons]; omega, ?_⟩
          intro fuel' hf'
          simp only [wMode, List.length_cons] at hf'
          obtain ⟨f', rfl⟩ : ∃ f', fuel' = f' + 1 := ⟨fuel' - 1, by omega⟩
          rw [ps_val_lbrace]
          apply hstab
          simp only [wMode]
          omega
        · by_cases h2 : c = lbrack
          · subst h2
            rw [ps_val_lbrack] at h
            obtain ⟨hle, hstab⟩ := ih _ _ _ _ h
            have hlsw : (skipWs r).length ≤ r.length := skipWs_length_le r
            refine ⟨by simp only [List.length_cons]; omega, ?_⟩
            intro fuel' hf'
            simp only [wMode, List.length_cons] at hf'
            obtain ⟨f', rfl⟩ : ∃ f', fuel' = f' + 1 := ⟨fuel' - 1, by omega⟩
            rw [ps_val_lbrack]
            apply hstab
            simp only [wMode]
            omega
          · by_cases h3 : c = dquote
            · subst h3
              rcases hps : parseStringAux [] r with _ | ⟨s, r2⟩
              · simp +decide [parseStep, hps] at h
              · rw [ps_val_str f hps] at h
                have hp := Option.some.inj h
                have hv' : v = Json.str s := (congrArg Prod.fst hp).symm
                have hr' : rest = r2 := (congrArg Prod.snd hp).symm
                subst hv'
                subst hr'
                have hle := parseStringAux_rest_le r.length r le_rfl [] s _ hps
                refine ⟨by simp only [List.length_cons]; omega, ?_⟩
                intro fuel' hf'
                simp only [wMode, List.length_cons] at hf'
                obtain ⟨f', rfl⟩ : ∃ f', fuel' = f' + 1 := ⟨fuel' - 1, by omega⟩
                rw [ps_val_str f' hps]
            · by_cases h4 : litNull.isPrefixOf (c :: r) = true
              · obtain ⟨t, ht⟩ := List.isPrefixOf_iff_prefix.mp h4
                rw [← ht] at h
                rw [ps_val_null] at h
                have hp := Option.some.inj h
                have hv' : v = Json.null := (congrArg Prod.fst hp).symm
                have hr' : rest = t := (congrArg Prod.snd hp).symm
                subst hv'
                subst hr'
                have hlen : (c :: r).length = 4 + rest.length := by
                  rw [← ht]
                  simp [litNull]
                  omega
                refine ⟨by omega, ?_⟩
                intro fuel' hf'
                simp only [wMode] at hf'
                obtain ⟨f', rfl⟩ : ∃ f', fuel' = f' + 1 := ⟨fuel' - 1, by omega⟩
                rw [← ht, ps_val_null]
              · by_cases h5 : litTrue.isPrefixOf (c :: r) = true
                · obtain ⟨t, ht⟩ := List.isPrefixOf_iff_prefix.mp h5
                  rw [← ht] at h
                  rw [ps_val_true] at h
                  have hp := Option.some.inj h
                  have hv' : v = Json.bool true := (congrArg Prod.fst hp).symm
                  have hr' : rest = t := (congrArg Prod.snd hp).symm
                  subst hv'
                  subst hr'
                  have hlen : (c :: r).length = 4 + rest.length := by
                    rw [← ht]
                    simp [litTrue]
                    omega
                  refine ⟨by omega, ?_⟩
                  intro fuel' hf'
                  simp only [wMode] at hf'
                  obtain ⟨f', rfl⟩ : ∃ f', fuel' = f' + 1 := ⟨fuel' - 1, by omega⟩
                  rw [← ht, ps_val_true]
                · by_cases h6 : litFalse.isPrefixOf (c :: r) = true
                  · obtain ⟨t, ht⟩ := List.isPrefixOf_iff_prefix.mp h6
                    rw [← ht] at h
                    rw [ps_val_false] at h
                    have hp := Option.some.inj h
                    have hv' : v = Json.bool false := (congrArg Prod.fst hp).symm
                    have hr' : rest = t := (congrArg Prod.snd hp).symm
                    subst hv'
                    subst hr'
                    have hlen : (c :: r).length = 5 + rest.length := by
                      rw [← ht]
                      simp [litFalse]
                      omega
                    refine ⟨by omega, ?_⟩
                    intro fuel' hf'
                    simp only [wMode] at hf'
                    obtain ⟨f', rfl⟩ : ∃ f', fuel' = f' + 1 := ⟨fuel' - 1, by omega⟩
                    rw [← ht, ps_val_false]
                  · have h4' := Bool.eq_false_iff.mpr h4
                    have h5' := Bool.eq_false_iff.mpr h5
                    have h6' := Bool.eq_false_iff.mpr h6
                    rcases hpn : parseNumber (c :: r) with _ | ⟨q, r2⟩
                    · simp +decide [parseStep, h1, h2, h3, h4', h5', h6', hpn] at h
                    · rw [ps_val_num f h1 h2 h3 h4' h5' h6' hpn] at h
                      have hp := Option.some.inj h
                      have hv' : v = Json.num q := (congrArg Prod.fst hp).symm
                      have hr' : rest = r2 := (congrArg Prod.snd hp).symm
                      subst hv'
                      subst hr'
                      have hle := parseNumber_rest_le hpn
                      refine ⟨hle, ?_⟩
                      intro fuel' hf'
                      simp only [wMode] at hf'
                      obtain ⟨f', rfl⟩ : ∃ f', fuel' = f' + 1 := ⟨fuel' - 1, by omega⟩
                      rw [ps_val_num f' h1 h2 h3 h4' h5' h6' hpn]
    | .elems acc =>
      match l with
      | [] => simp +decide [parseStep] at h
      | c :: r =>
        by_cases hcl : c = rbrack ∧ acc = []
        · obtain ⟨rfl, rfl⟩ := hcl
          rw [ps_elems_close] at h
          have hp := Option.some.inj h
          have hv' : v = Json.arr [] := (congrArg Prod.fst hp).symm
          have hr' : rest = r := (congrArg Prod.snd hp).symm
          subst hv'
          subst hr'
          refine ⟨by simp, ?_⟩
          intro fuel' hf'
          simp only [wMode, List.length_cons] at hf'
          obtain ⟨f', rfl⟩ : ∃ f', fuel' = f' + 1 := ⟨fuel' - 1, by omega⟩
          rw [ps_elems_close]
        · rcases hv : parseStep f .val (c :: r) with _ | ⟨v2, r2⟩
          · simp +decide [parseStep, hcl, hv] at h
          · obtain ⟨hle1, hstab1⟩ := ih _ _ _ _ hv
            simp only [List.length_cons] at hle1
            rcases hsw : skipWs r2 with _ | ⟨c2, r4⟩
            · simp +decide [parseStep, hcl, hv, hsw] at h
            · have hlsw2 : (skipWs r2).length ≤ r2.length := skipWs_length_le r2
              have hlen4 : r4.length + 1 = (skipWs r2).length := by
                rw [hsw]
                rfl
              by_cases hc2 : c2 = ','
              · subst hc2
                rw [ps_elems_comma f acc hcl hv hsw] at h
                obtain ⟨hle2, hstab2⟩ := ih _ _ _ _ h
                have hlsw4 : (skipWs r4).length ≤ r4.length := skipWs_length_le r4
                refine ⟨by simp only [List.length_cons]; omega, ?_⟩
                intro fuel' hf'
                simp only [wMode, List.length_cons] at hf'
                obtain ⟨f', rfl⟩ : ∃ f', fuel' = f' + 1 := ⟨fuel' - 1, by omega⟩
                rw [ps_elems_comma f' acc hcl
                  (hstab1 f' (by simp only [wMode, List.length_cons]; omega)) hsw]
                apply hstab2
                simp only [wMode]
                omega
              · by_cases hc2b : c2 = rbrack
                · subst hc2b
                  rw [ps_elems_rb f acc hcl hv hsw] at h
                  have hp := Option.some.inj h
                  have hv' : v = Json.arr (v2 :: acc).reverse :=
                    (congrArg Prod.fst hp).symm
                  have hr' : rest = r4 := (congrArg Prod.snd hp).symm
                  subst hv'
                  subst hr'
                  refine ⟨by simp only [List.length_cons]; omega, ?_⟩
                  intro fuel' hf'
                  simp only [wMode, List.length_cons] at hf'
                  obtain ⟨f', rfl⟩ : ∃ f', fuel' = f' + 1 := ⟨fuel' - 1, by omega⟩
                  rw [ps_elems_rb f' acc hcl
                    (hstab1 f' (by simp only [wMode, List.length_cons]; omega)) hsw]
                · simp +decide [parseStep, hcl, hv, hsw, hc2, hc2b] at h
    | .mems acc =>
      match l with
      | [] => simp +decide [parseStep] at h
      | c :: r =>
        by_cases hcl : c = rbrace ∧ acc = []
        · obtain ⟨rfl, rfl⟩ := hcl
          rw [ps_mems_close] at h
          have hp := Option.some.inj h
          have hv' : v = Json.obj [] := (congrArg Prod.fst hp).symm
          have hr' : rest = r := (congrArg Prod.snd hp).symm
          subst hv'
          subst hr'
          refine ⟨by simp, ?_⟩
          intro fuel' hf'
          simp only [wMode, List.length_cons] at hf'
          obtain ⟨f', rfl⟩ : ∃ f', fuel' = f' + 1 := ⟨fuel' - 1, by omega⟩
          rw [ps_mems_close]
        · by_cases hdq : c = dquote
          · subst hdq
            rcases hk : parseStringAux [] r with _ | ⟨k, r2⟩
            · simp +decide [parseStep, hcl, hk] at h
            · have hlek : r2.length ≤ r.length :=
                parseStringAux_rest_le r.length r le_rfl [] k _ hk
              rcases hsw : skipWs r2 with _ | ⟨c2, r3⟩
              · simp +decide [parseStep, hcl, hk, hsw] at h
              · have hlsw2 : (skipWs r2).length ≤ r2.length := skipWs_length_le r2
                have hlen3 : r3.length + 1 = (skipWs r2).length := by
                  rw [hsw]
                  rfl
                by_cases hc2 : c2 = ':'
                · subst hc2
                  rcases hv : parseStep f .val (skipWs r3) with _ | ⟨v2, r4⟩
                  · simp +decide [parseStep, hcl, hk, hsw, hv] at h
                  · obtain ⟨hle1, hstab1⟩ := ih _ _ _ _ hv
                    have hlsw3 : (skipWs r3).length ≤ r3.length := skipWs_length_le r3
                    rcases hsw2 : skipWs r4 with _ | ⟨c3, r5⟩
                    · simp +decide [parseStep, hcl, hk, hsw, hv, hsw2] at h
                    · have hlsw4 : (skipWs r4).length ≤ r4.length := skipWs_length_le r4
                      have hlen5 : r5.length + 1 = (skipWs r4).length := by
                        rw [hsw2]
                        rfl
                      by_cases hc3 : c3 = ','
                      · subst hc3
                        rw [ps_mems_comma f acc hk hsw hv hsw2] at h
                        obtain ⟨hle2, hstab2⟩ := ih _ _ _ _ h
                        have hlsw5 : (skipWs r5).length ≤ r5.length := skipWs_length_le r5
                        refine ⟨by simp only [List.length_cons]; omega, ?_⟩
                        intro fuel' hf'
                        simp only [wMode, List.length_cons] at hf'
                        obtain ⟨f', rfl⟩ : ∃ f', fuel' = f' + 1 := ⟨fuel' - 1, by omega⟩
                        rw [ps_mems_comma f' acc hk hsw
                          (hstab1 f' (by simp only [wMode]; omega)) hsw2]
                        apply hstab2
                        simp only [wMode]
                        omega
                      · by_cases hc3b : c3 = rbrace
                        · subst hc3b
                          rw [ps_mems_rb f acc hk hsw hv hsw2] at h
                          have hp := Option.some.inj h
                          have hv' : v = Json.obj ((k, v2) :: acc).reverse :=
                            (congrArg Prod.fst hp).symm
                          have hr' : rest = r5 := (congrArg Prod.snd hp).symm
                          subst hv'
                          subst hr'
                          refine ⟨by simp only [List.length_cons]; omega, ?_⟩
                          intro fuel' hf'
                          simp only [wMode, List.length_cons] at hf'
                          obtain ⟨f', rfl⟩ : ∃ f', fuel' = f' + 1 := ⟨fuel' - 1, by omega⟩
                          rw [ps_mems_rb f' acc hk hsw
                            (hstab1 f' (by simp only [wMode]; omega)) hsw2]
                        · simp +decide [parseStep, hcl, hk, hsw, hv, hsw2, hc3, hc3b] at h
                · simp +decide [parseStep, hcl, hk, hsw, hc2] at h
          · simp +decide [parseStep, hcl, hdq] at h

/-- `jsonLoads` as a closed expression (the `let` unfolded). -/
theorem jsonLoads_eq (s : String) :
    jsonLoads s
      = match parseStep (2 * (skipWs s.toList).length + 2) .val (skipWs s.toList) with
        | some (v, rest) => if (skipWs rest).isEmpty then some v else none
        | none => none := rfl

/-- `json.loads` ignores surrounding whitespace: if a text parses, so does its
`.strip()`, to the same value. -/
theorem jsonLoads_pyStrip {t : String} {j : Json} (h : jsonLoads t = some j) :
    jsonLoads (pyStrip t) = some j := by
  rcases hM : skipWs t.toList with _ | ⟨c, r⟩
  · rw [jsonLoads_eq, hM] at h
    simp [parseStep] at h
  · rw [jsonLoads_eq, hM] at h
    rcases hps : parseStep (2 * (c :: r).length + 2) .val (c :: r) with _ | ⟨v, rest⟩
    · rw [hps] at h
      simp at h
    · rw [hps] at h
      by_cases hemp : (skipWs rest).isEmpty = true
      · simp [hemp] at h
        subst h
        have hhead : isPyWs c = false := parseStep_val_head hps
        have hmain := parseStep_trimWs _ .val (c :: r) v rest hps
        have hfin := (parseStep_strong _ .val (trimWs (c :: r)) v (trimWs rest) hmain).2
          (2 * (trimWs (c :: r)).length + 2) (by simp only [wMode]; omega)
        have hTL : (pyStrip t).toList = trimWs (c :: r) := by
          show pyStripList t.toList = trimWs (c :: r)
          rw [pyStripList_eq_trimWs, ← dropWhile_pyWs_skipWs, hM, List.dropWhile_cons,
            if_neg (by simp [hhead])]
        have hswcr : skipWs (trimWs (c :: r)) = trimWs (c :: r) := by
          rw [skipWs_trimWs]
          have hcr : skipWs (c :: r) = c :: r := by
            show (c :: r).dropWhile isJsonWs = c :: r
            rw [List.dropWhile_cons, if_neg (by simp [not_isPyWs_not_isJsonWs hhead])]
          rw [hcr]
        have hrest0 : skipWs rest = [] := List.isEmpty_iff.mp hemp
        rw [jsonLoads_eq, hTL, hswcr, hfin]
        simp [skipWs_trimWs, hrest0, trimWs_nil]
      · simp [hemp] at h





theorem ticks_isPrefixOf_ticks_append (r : List Char) :
    ticks.isPrefixOf (btick :: btick :: btick :: r) = true := by
  simp [ticks, List.isPrefixOf]

theorem ticks_not_prefix_pos1 {c : Char} (hc : c ≠ btick) (cs : List Char) :
    ticks.isPrefixOf (c :: cs) = false := by
  simp only [ticks, List.isPrefixOf, Bool.and_eq_false_iff]
  left
  simp [beq_eq_false_iff_ne]
  exact fun h => hc h.symm

theorem ticks_not_prefix_pos2 {c2 : Char} (hc : c2 ≠ btick) (c1 : Char) (cs : List Char) :
    ticks.isPrefixOf (c1 :: c2 :: cs) = false := by
  simp only [ticks, List.isPrefixOf, Bool.and_eq_false_iff]
  right
  left
  simp [beq_eq_false_iff_ne]
  exact fun h => hc h.symm

theorem ticks_not_prefix_pos3 {c3 : Char} (hc : c3 ≠ btick) (c1 c2 : Char) (cs : List Char) :
    ticks.isPrefixOf (c1 :: c2 :: c3 :: cs) = false := by
  simp only [ticks, List.isPrefixOf, Bool.and_eq_false_iff]
  right
  right
  left
  simp [beq_eq_false_iff_ne]
  exact fun h => hc h.symm

theorem listInfixBool_cons_split {pat : List Char} {c : Char} {cs : List Char}
    (h : listInfixBool pat (c :: cs) = false) :
    pat.isPrefixOf (c :: cs) = false ∧ listInfixBool pat cs = false := by
  rw [listInfixBool, Bool.or_eq_false_iff] at h
  exact h

theorem listInfixBool_cons_of_ne {c : Char} (hc : c ≠ btick) (l : List Char) :
    listInfixBool ticks (c :: l) = listInfixBool ticks l := by
  rw [listInfixBool, ticks_not_prefix_pos1 hc, Bool.false_or]

theorem ticks_not_prefix_of_no_infix {l : List Char} (h : listInfixBool ticks l = false) :
    ticks.isPrefixOf l = false := by
  cases l with
  | nil => rfl
  | cons c cs => exact (listInfixBool_cons_split h).1

theorem splitTicksFuel_nil_nil (f : Nat) : splitTicksFuel f [] [] = [[]] := by
  cases f <;> rfl

theorem splitTicksFuel_ticks (fuel : Nat) (acc r : List Char) :
    splitTicksFuel (fuel + 1) acc (btick :: btick :: btick :: r)
      = acc.reverse :: splitTicksFuel fuel [] r := by
  rw [splitTicksFuel, if_pos]
  · rfl
  · rw [ticks_isPrefixOf_ticks_append]

theorem splitTicksFuel_step (fuel : Nat) (acc : List Char) {c : Char} {cs : List Char}
    (h : ticks.isPrefixOf (c :: cs) = false) :
    splitTicksFuel (fuel + 1) acc (c :: cs) = splitTicksFuel fuel (c :: acc) cs := by
  rw [splitTicksFuel, if_neg]
  rw [h]
  simp

theorem newline_ne_btick : ('\n' : Char) ≠ btick := by decide

/-- Scanning a fence-marker-free piece followed by a closing fence consumes the
piece into the current accumulator and finishes with an empty trailing piece. -/
theorem splitTicksFuel_clean_piece :
    ∀ (t acc : List Char) (fuel : Nat), t.length + 2 ≤ fuel →
      listInfixBool ticks t = false →
      splitTicksFuel fuel acc (t ++ '\n' :: ticks) = (acc.reverse ++ t ++ ['\n']) :: [[]] := by
  intro t
  induction t with
  | nil =>
    intro acc fuel hf _
    obtain ⟨f, rfl⟩ : ∃ f, fuel = f + 2 := ⟨fuel - 2, by omega⟩
    show splitTicksFuel (f + 1 + 1) acc ('\n' :: btick :: btick :: btick :: []) = _
    rw [splitTicksFuel_step (f + 1) acc (ticks_not_prefix_pos1 newline_ne_btick _),
      splitTicksFuel_ticks, splitTicksFuel_nil_nil]
    simp
  | cons c t' ih =>
    intro acc fuel hf hinf
    obtain ⟨hpre, hinf'⟩ := listInfixBool_cons_split hinf
    obtain ⟨f, rfl⟩ : ∃ f, fuel = f + 1 := ⟨fuel - 1, by omega⟩
    have hstep : ticks.isPrefixOf (c :: (t' ++ '\n' :: ticks)) = false := by
      cases t' with
      | nil => exact ticks_not_prefix_pos2 newline_ne_btick _ _
      | cons d v =>
        cases v with
        | nil => exact ticks_not_prefix_pos3 newline_ne_btick _ _ _
        | cons e w =>
          show ticks.isPrefixOf (c :: d :: e :: (w ++ '\n' :: ticks)) = false
          have hpw : ticks.isPrefixOf (c :: d :: e :: w) = false := hpre
          simp only [ticks, List.isPrefixOf, Bool.and_eq_false_iff] at hpw ⊢
          rcases hpw with h | h | h | h
          · exact Or.inl h
          · exact Or.inr (Or.inl h)
          · exact Or.inr (Or.inr (Or.inl h))
          · cases h
    show splitTicksFuel (f + 1) acc (c :: (t' ++ '\n' :: ticks)) = _
    rw [splitTicksFuel_step f acc hstep, ih (c :: acc) f (by simp at hf; omega) hinf']
    simp

/-- Splitting a fenced wrapper on the fence marker yields exactly the three
pieces: empty, the tagged inner content, empty. -/
theorem splitTicks_wrap (tag t : List Char)
    (hinf : listInfixBool ticks (tag ++ '\n' :: t) = false) :
    splitTicks (ticks ++ (tag ++ '\n' :: (t ++ '\n' :: ticks)))
      = [[], (tag ++ '\n' :: t) ++ ['\n'], []] := by
  unfold splitTicks
  show splitTicksFuel ((ticks ++ (tag ++ '\n' :: (t ++ '\n' :: ticks))).length + 1) []
    (btick :: btick :: btick :: (tag ++ '\n' :: (t ++ '\n' :: ticks))) = _
  rw [show (ticks ++ (tag ++ '\n' :: (t ++ '\n' :: ticks))).length + 1
      = (tag.length + t.length + 8) + 1 by simp [ticks]; omega]
  rw [splitTicksFuel_ticks]
  have hre : tag ++ '\n' :: (t ++ '\n' :: ticks) = (tag ++ '\n' :: t) ++ '\n' :: ticks := by
    simp
  rw [hre, splitTicksFuel_clean_piece (tag ++ '\n' :: t) [] (tag.length + t.length + 8)
    (by simp; omega) hinf]
  simp

/-- Wrapping any piece in single newlines and stripping strips the piece: the
added padding is absorbed by the two `dropWhile` passes of `str.strip()`. -/
theorem pyStripList_newline_wrap_strip (t : List Char) :
    pyStripList ('\n' :: (t ++ ['\n'])) = pyStripList t := by
  rw [pyStripList_eq_trimWs, pyStripList_eq_trimWs]
  rw [List.dropWhile_cons, if_pos (by decide : isPyWs '\n' = true)]
  rcases hd : t.dropWhile isPyWs with _ | ⟨x, xs⟩
  · rw [List.dropWhile_append, hd]
    simp
    rw [show List.dropWhile isPyWs ['\n'] = ([] : List Char) from rfl]
  · rw [List.dropWhile_append, hd]
    simp only [List.isEmpty_cons, Bool.false_eq_true, if_false]
    exact List.rdropWhile_concat_pos _ _ _ (by decide)

/-- Stripping the markdown fences off a wrapped piece (with an empty or `json`
language tag) recovers the stripped piece. -/
theorem stripFencesList_wrap (tag t : List Char)
    (htag : tag = [] ∨ tag = jsonTag)
    (hinf : listInfixBool ticks t = false) :
    stripFencesList (ticks ++ (tag ++ '\n' :: (t ++ '\n' :: ticks))) = pyStripList t := by
  have hinfTagged : listInfixBool ticks (tag ++ '\n' :: t) = false := by
    rcases htag with rfl | rfl
    · show listInfixBool ticks ('\n' :: t) = false
      rw [listInfixBool_cons_of_ne newline_ne_btick]
      exact hinf
    · show listInfixBool ticks ('j' :: 's' :: 'o' :: 'n' :: '\n' :: t) = false
      rw [listInfixBool_cons_of_ne (by decide) , listInfixBool_cons_of_ne (by decide),
        listInfixBool_cons_of_ne (by decide), listInfixBool_cons_of_ne (by decide),
        listInfixBool_cons_of_ne newline_ne_btick]
      exact hinf
  unfold stripFencesList
  rw [if_pos (by rw [show ticks ++ (tag ++ '\n' :: (t ++ '\n' :: ticks))
        = btick :: btick :: btick :: (tag ++ '\n' :: (t ++ '\n' :: ticks)) from rfl,
      ticks_isPrefixOf_ticks_append])]
  rw [splitTicks_wrap tag t hinfTagged]
  rcases htag with rfl | rfl
  · show pyStripList
      (if jsonTag.isPrefixOf (([] ++ '\n' :: t) ++ ['\n'])
       then (([] ++ '\n' :: t) ++ ['\n']).drop 4
       else ([] ++ '\n' :: t) ++ ['\n']) = pyStripList t
    rw [if_neg (by simp [jsonTag, List.isPrefixOf])]
    show pyStripList ('\n' :: (t ++ ['\n'])) = pyStripList t
    exact pyStripList_newline_wrap_strip t
  · show pyStripList
      (if jsonTag.isPrefixOf ((jsonTag ++ '\n' :: t) ++ ['\n'])
       then ((jsonTag ++ '\n' :: t) ++ ['\n']).drop 4
       else (jsonTag ++ '\n' :: t) ++ ['\n']) = pyStripList t
    rw [if_pos (by simp [jsonTag, List.isPrefixOf])]
    show pyStripList ('\n' :: (t ++ ['\n'])) = pyStripList t
    exact pyStripList_newline_wrap_strip t

theorem stripFences_eq_self {t : String} (h : strContains t ("```") = false) :
    stripFences t = t := by
  have hp : ticks.isPrefixOf t.toList = false :=
    ticks_not_prefix_of_no_infix (by exact h)
  unfold stripFences stripFencesList
  rw [if_neg (by rw [hp]; simp)]
  rfl

theorem wrapFence_toList (tag t : String) :
    (wrapFence tag t).toList
      = ticks ++ (tag.toList ++ '\n' :: (t.toList ++ '\n' :: ticks)) := by
  show (((("```" ++ tag) ++ "\n") ++ t) ++ "\n```").data
      = ticks ++ (tag.data ++ '\n' :: (t.data ++ '\n' :: ticks))
  simp only [String.data_append]
  simp only [List.append_assoc]
  rfl

/-- C9 amended: for every provider text with no embedded fence marker, wrapping
it in a leading/trailing markdown code fence, with or without a `json` language
tag, is transparent to the classify-intent response parsing: the fence stripping
recovers exactly the `.strip()` of the text, and whenever the unwrapped text
parses to a structured classification result, the wrapped text parses to the
same result.  (A text containing the fence marker inside a JSON string literal
is mangled — see the counterexample.) -/
theorem fence_stripping_transparent :
    ∀ (t tag : String), (tag = "" ∨ tag = "json") →
      strContains t ("```") = false →
      stripFences (wrapFence tag t) = pyStrip t ∧
      ∀ fields, classifyParse t = some fields →
        classifyParse (wrapFence tag t) = some fields := by
  intro t tag htag hinf
  have hinf' : listInfixBool ticks t.toList = false := hinf
  have htag' : tag.toList = [] ∨ tag.toList = jsonTag := by
    rcases htag with rfl | rfl
    · exact Or.inl rfl
    · exact Or.inr rfl
  have hmain : stripFences (wrapFence tag t) = pyStrip t := by
    unfold stripFences
    rw [wrapFence_toList, stripFencesList_wrap tag.toList t.toList htag' hinf']
    rfl
  refine ⟨hmain, ?_⟩
  intro fields hf
  unfold classifyParse at hf ⊢
  rw [stripFences_eq_self hinf] at hf
  rcases hjl : jsonLoads t with _ | v
  · rw [hjl] at hf
    simp at hf
  · rw [hjl] at hf
    cases v with
    | obj fs =>
      simp at hf
      subst hf
      rw [hmain, jsonLoads_pyStrip hjl]
    | null => simp at hf
    | bool b => simp at hf
    | num q => simp at hf
    | str s => simp at hf
    | arr xs => simp at hf

def validClassifyText : String :=
  "\x7b\"intent\": \"READ_EMAILS\", \"parameters\": \x7b\"limit\": 3\x7d, \"confidence\": 0.92\x7d"

/-- A valid classification text padded with a trailing newline: `.strip()`
removes the padding, and `json.loads` ignores it unwrapped, so the wrapped and
unwrapped parses still agree. -/
def validClassifyTextNL : String := validClassifyText ++ "\n"

set_option maxRecDepth 40000 in
/-- Witness for C9's amended statement: a concrete valid classification JSON
text with a trailing newline parses, wrapped in a fence, to the same structured
result that the unwrapped text parses to. -/
theorem fence_stripping_transparent_witness :
    stripFences (wrapFence "json" validClassifyTextNL) = pyStrip validClassifyTextNL ∧
    classifyParse (wrapFence "json" validClassifyTextNL)
      = some [("intent", Json.str "READ_EMAILS"),
              ("parameters", Json.obj [("limit", Json.num ⟨3, 0⟩)]),
              ("confidence", Json.num ⟨92, 2⟩)] := by
  obtain ⟨h1, h2⟩ :=
    fence_stripping_transparent validClassifyTextNL "json" (Or.inr rfl) (by decide)
  exact ⟨h1, h2 _ rfl⟩

def backtickCmText : String :=
  "\x7b\"intent\": \"GENERAL_CHAT\", \"parameters\": \x7b\"custom_message\": \"a ``` b\"\x7d, \"confidence\": 0.5\x7d"

/-- C9 counterexample: a JSON text that parses to a valid classification result
but contains the fence marker inside a string literal; wrapping it in a markdown
code fence and parsing does NOT yield the same structured result — the split on
the fence marker truncates the content at the embedded marker and the parse
fails. -/
theorem fence_stripping_cex :
    classifyParse backtickCmText
      = some [("intent", .str "GENERAL_CHAT"),
              ("parameters", .obj [("custom_message", .str "a ``` b")]),
              ("confidence", .num ⟨5, 1⟩)] ∧
    classifyParse (wrapFence "json" backtickCmText) = none ∧
    classifyParse (wrapFence "json" backtickCmText) ≠ classifyParse backtickCmText := by
  refine ⟨rfl, rfl, ?_⟩
  intro h
  rw [show classifyParse (wrapFence "json" backtickCmText) = none from rfl] at h
  rw [show classifyParse backtickCmText
      = some [("intent", .str "GENERAL_CHAT"),
              ("parameters", .obj [("custom_message", .str "a ``` b")]),
              ("confidence", .num ⟨5, 1⟩)] from rfl] at h
  cases h

end ConstructureAI
